import Mathlib

/-!
Verification of the exhibit-assembly pipeline of `src/app.py`
(`generate_exhibits_v2` / `process_func`, plus the helper `to_roman`).

The pipeline is embedded shallowly:

* pure helpers (`os.path.join`, `os.path.basename`, `Path(...).stem`,
  exhibit-number formatting, `to_roman`) become Lean functions;
* the per-run filesystem is an explicit map `String → Option Content`;
* the step-tracking calls (`update_step`, `set_step_progress`,
  `complete_step`) are recorded as an event trace, and the step state
  machine that interprets them — which lives in
  `components/background_processor.py`, not part of the sources — is
  modelled from the specification (§4.1/§4.2);
* external collaborators (PDF handler, AI classifier, DOCX engine) are
  parameters of the run environment, modelled from the collaborator
  contracts of the specification (§6);
* machine floats used for progress percentages are modelled as `Rat`.
-/

/-- Byte content of a file, as a list of byte values. -/
abbrev Content := List Nat

/-- The filesystem visible to one run: a map from path to file content. -/
abbrev FS := String → Option Content

/-- Writing a file: later writes to the same path overwrite earlier ones. -/
def fsWrite (fs : FS) (p : String) (c : Content) : FS :=
  fun q => if q = p then some c else fs q

/-- `os.path.join(a, b)` for a relative second component (POSIX). -/
def pyJoin (a b : String) : String := a ++ "/" ++ b

/-- Split a character list at every occurrence of the separator `c`
(the list of pieces is never empty). -/
def splitCharAux (c : Char) : List Char → List (List Char)
  | [] => [[]]
  | x :: xs =>
      match splitCharAux c xs with
      | [] => if x = c then [[], []] else [[x]]
      | h :: t => if x = c then [] :: h :: t else (x :: h) :: t

/-- `os.path.basename`: the part after the last slash. -/
def basename (p : String) : String :=
  String.mk (((splitCharAux '/' p.data).getLast?).getD [])

/-- `os.path.isabs` on POSIX: the path starts with a slash. -/
def isAbs (p : String) : Bool :=
  match p.data with
  | [] => false
  | c :: _ => c = '/'

/-- `pathlib.Path(p).stem`: the final component without its last suffix
(for ordinary names with an extension). -/
def stemOf (p : String) : String :=
  let parts := splitCharAux '.' (basename p).data
  if parts.length ≤ 1 then basename p
  else String.mk (List.intercalate ['.'] parts.dropLast)

/-- The letters-style exhibit number from `process_func`
(src/app.py line 2233): `chr(65 + i) if i < 26 else f"A{chr(65 + i - 26)}"`. -/
def lettersLabel (i : Nat) : String :=
  if i < 26 then String.singleton (Char.ofNat (65 + i))
  else "A" ++ String.singleton (Char.ofNat (65 + i - 26))

/-- The standard bijective base-26 letter sequence A, …, Z, AA, AB, …, AZ,
BA, … named by the claim; this follows the claim's words, for comparison
with `lettersLabel`. -/
def bijBase26 (i : Nat) : String :=
  if h : i < 26 then String.singleton (Char.ofNat (65 + i))
  else bijBase26 (i / 26 - 1) ++ String.singleton (Char.ofNat (65 + i % 26))
termination_by i
decreasing_by
  simp only [not_lt] at h
  omega

/-- The `(value, symbol)` table of `to_roman` (src/app.py lines 2478-2479). -/
def romanPairs : List (Nat × String) :=
  [(1000, "M"), (900, "CM"), (500, "D"), (400, "CD"), (100, "C"), (90, "XC"),
   (50, "L"), (40, "XL"), (10, "X"), (9, "IX"), (5, "V"), (4, "IV"), (1, "I")]

/-- The accumulator loop of `to_roman`: for each `(value, symbol)` pair in
order, append `symbol` `num / value` times and reduce `num` to
`num % value` (the `while`/`for` loop of src/app.py lines 2480-2487,
with the accumulated string made explicit). -/
def romanLoop : List (Nat × String) → String → Nat → String
  | [], acc, _ => acc
  | (v, s) :: rest, acc, n =>
      romanLoop rest (acc ++ String.join (List.replicate (n / v) s)) (n % v)

/-- `to_roman` from src/app.py lines 2476-2487. -/
def to_roman (num : Nat) : String := romanLoop romanPairs "" num

/-- Canonical subtractive-notation units digits. -/
def romanUnits : List String :=
  ["", "I", "II", "III", "IV", "V", "VI", "VII", "VIII", "IX"]

/-- Canonical subtractive-notation tens digits. -/
def romanTens : List String :=
  ["", "X", "XX", "XXX", "XL", "L", "LX", "LXX", "LXXX", "XC"]

/-- Canonical subtractive-notation hundreds digits. -/
def romanHundreds : List String :=
  ["", "C", "CC", "CCC", "CD", "D", "DC", "DCC", "DCCC", "CM"]

/-- The canonical subtractive-notation roman numeral, built digit by digit;
this follows the claim's words ("standard subtractive-notation numerals"),
for comparison with `to_roman`. -/
def romanCanonical (n : Nat) : String :=
  String.join (List.replicate (n / 1000) "M")
    ++ (romanHundreds.getD (n / 100 % 10) "")
    ++ (romanTens.getD (n / 10 % 10) "")
    ++ (romanUnits.getD (n % 10) "")

/-- The exhibit-number dispatch of `process_func`
(src/app.py lines 2232-2237): letters, decimal, or roman per the
configured numbering style (any style other than `letters` and
`numbers` falls through to roman). -/
def exhibitNumber (style : String) (i : Nat) : String :=
  if style = "letters" then lettersLabel i
  else if style = "numbers" then toString (i + 1)
  else to_roman (i + 1)

theorem string_append_assoc (a b c : String) : a ++ b ++ c = a ++ (b ++ c) := by
  apply String.ext
  simp [String.data_append, List.append_assoc]

theorem string_empty_append (a : String) : "" ++ a = a := by
  apply String.ext
  simp [String.data_append]

theorem romanLoop_acc (ps : List (Nat × String)) (acc : String) (n : Nat) :
    romanLoop ps acc n = acc ++ romanLoop ps "" n := by
  induction ps generalizing acc n with
  | nil => simp [romanLoop]
  | cons p rest ih =>
      obtain ⟨v, s⟩ := p
      rw [romanLoop, romanLoop,
        ih (acc ++ String.join (List.replicate (n / v) s)) (n % v),
        ih ("" ++ String.join (List.replicate (n / v) s)) (n % v)]
      rw [string_empty_append, string_append_assoc]

set_option maxRecDepth 10000 in
theorem romanLoop_sub (m : Nat) (hm : m < 1000) :
    romanLoop (romanPairs.drop 1) "" m =
      (romanHundreds.getD (m / 100 % 10) "")
        ++ (romanTens.getD (m / 10 % 10) "")
        ++ (romanUnits.getD (m % 10) "") := by
  revert hm
  revert m
  decide

theorem to_roman_eq_canonical (n : Nat) : to_roman n = romanCanonical n := by
  have h1 : to_roman n
      = String.join (List.replicate (n / 1000) "M")
        ++ romanLoop (romanPairs.drop 1) "" (n % 1000) := by
    rw [to_roman]
    show romanLoop ((1000, "M") :: romanPairs.drop 1) "" n = _
    rw [romanLoop, romanLoop_acc, string_empty_append]
  rw [h1, romanLoop_sub (n % 1000) (Nat.mod_lt _ (by norm_num)), romanCanonical]
  have e1 : n % 1000 / 100 % 10 = n / 100 % 10 := by omega
  have e2 : n % 1000 / 10 % 10 = n / 10 % 10 := by omega
  have e3 : n % 1000 % 10 = n % 10 := by omega
  rw [e1, e2, e3]
  simp only [string_append_assoc]

theorem bijBase26_small (i : Nat) (h : i < 26) :
    bijBase26 i = String.singleton (Char.ofNat (65 + i)) := by
  rw [bijBase26]
  simp [h]

theorem bijBase26_mid (i : Nat) (h1 : 26 ≤ i) (h2 : i < 52) :
    bijBase26 i = "A" ++ String.singleton (Char.ofNat (65 + (i - 26))) := by
  rw [bijBase26]
  have hn : ¬ i < 26 := by omega
  have hq : i / 26 - 1 = 0 := by omega
  have hr : i % 26 = i - 26 := by omega
  simp only [hn, dite_false, hq, hr]
  have h0 : bijBase26 0 = "A" := by
    rw [bijBase26]
    rfl
  rw [h0]

/-- C2 counterexample: at input position 52 the code's letters-style
number is `"A["` (the character after `Z`), while the standard bijective
base-26 sequence says `"BA"`; the two disagree, so the claimed identity
fails at i = 52. -/
theorem c2_counterexample :
    lettersLabel 52 = "A[" ∧ bijBase26 52 = "BA" ∧ lettersLabel 52 ≠ bijBase26 52 := by
  have h1 : bijBase26 1 = "B" := by
    rw [bijBase26_small 1 (by norm_num)]
    decide
  have hb : bijBase26 52 = "BA" := by
    rw [bijBase26, dif_neg (by decide)]
    norm_num
    rw [h1]
    decide
  refine ⟨by decide, hb, ?_⟩
  rw [hb]
  decide

/-- C2 amended: the letters-style exhibit number agrees with the standard
bijective base-26 letter sequence exactly on positions 0 ≤ i < 52
(A…Z, then AA…AZ); in particular position 27 (i = 26) is "AA". From
i = 52 on, the code emits "A" followed by the raw character with code
65 + i - 26 instead of advancing the first letter. -/
theorem c2_amended (i : Nat) (h : i < 52) : lettersLabel i = bijBase26 i := by
  by_cases h26 : i < 26
  · rw [lettersLabel, if_pos h26, bijBase26_small i h26]
  · have h1 : 26 ≤ i := by omega
    rw [lettersLabel, if_neg h26, bijBase26_mid i h1 h]
    have : 65 + i - 26 = 65 + (i - 26) := by omega
    rw [this]

/-- C2 witness: at position 26 (the 27th exhibit) both the code and the
bijective base-26 sequence give "AA". -/
theorem c2_witness : (26 : Nat) < 52 ∧ lettersLabel 26 = bijBase26 26 :=
  ⟨by norm_num, c2_amended 26 (by norm_num)⟩

/-- C6: numbering-style `numbers` assigns the decimal representation of
i + 1, and numbering-style `roman` assigns the canonical
subtractive-notation roman numeral for i + 1 (the greedy
largest-value-first reduction of `to_roman` coincides with the
digit-table canonical form, so IV/IX/XL/XC/CD/CM appear and additive
forms like IIII never do). -/
theorem c6_numbers_and_roman (i : Nat) :
    exhibitNumber "numbers" i = Nat.repr (i + 1)
      ∧ exhibitNumber "roman" i = romanCanonical (i + 1) := by
  constructor
  · rw [exhibitNumber, if_neg (by decide), if_pos rfl]
    rfl
  · rw [exhibitNumber, if_neg (by decide), if_neg (by decide)]
    exact to_roman_eq_canonical (i + 1)

/-- One call the pipeline makes on the step tracker: `update_step`,
`set_step_progress` or `complete_step`. Progress percentages (Python
floats) are modelled exactly as rationals. -/
inductive Ev where
  | upd (name status : String) (msg : Option String)
  | prog (name : String) (pct : Rat)
  | comp (name : String)
deriving DecidableEq, Repr

/-- One uploaded input file: a name plus readable byte content. -/
structure UploadFile where
  name : String
  content : Content
deriving DecidableEq, Repr

/-- One entry of the `zip_files` session list: either a value that is not
a string at all (its printed form is kept for the error message) or a
string path. -/
inductive ZipInput where
  | notString (display : String)
  | path (p : String)
deriving DecidableEq, Repr

/-- The dict returned by the compression collaborator
(`compress(file_path) -> {success, original_size, compressed_size,
reduction_percent, method}`, spec §6). -/
structure CompResult where
  success : Bool
  original_size : Nat
  compressed_size : Nat
  reduction_percent : Rat
  method : String
deriving DecidableEq, Repr

/-- Modelled from the spec: the compression collaborator
(`pdf_handler.compressor.compress`, whose implementation is not among the
sources) either returns a result dict per the §6 contract or raises. -/
inductive CompressOutcome where
  | raises (msg : String)
  | returns (r : CompResult)
deriving DecidableEq, Repr

/-- The configuration dict consumed by `process_func`. -/
structure Config where
  enable_compression : Bool
  quality_preset : String
  smallpdf_api_key : Option String
  numbering_style : String
  add_toc : Bool
  add_cover_letter : Bool
  add_filing_instructions : Bool
  merge_pdfs : Bool
  include_full_text_images : Bool
  visa_type : String
deriving Repr

/-- The compression info attached to an exhibit record
(src/app.py lines 2297-2301). -/
structure CompInfo where
  reduction : Rat
  method : String
deriving DecidableEq, Repr

/-- One exhibit record as assembled during the number step
(src/app.py lines 2240-2303). The AI analysis payload is kept opaque:
its internal fields belong to the out-of-scope classifier collaborator. -/
structure Exhibit where
  number : String
  title : String
  filename : String
  pages : Nat
  compression : Option CompInfo
  analysis : Option String
deriving DecidableEq, Repr

/-- The `compression_stats` record persisted during finalize
(src/app.py lines 2448-2454). -/
structure Stats where
  original_size : Nat
  compressed_size : Nat
  avg_reduction : Rat
  method : String
  quality : String
deriving DecidableEq, Repr

/-- Modelled from the spec: the run environment — the temp directory,
the timestamped persistent output path, the pre-existing filesystem, and
the behaviors of the external collaborators consumed through the narrow
contracts of §6 (PDF handler, compressor, AI classifier, DOCX template
engine), whose implementations are not among the sources. -/
structure Env where
  tmpDir : String
  persistPath : String
  fs0 : FS
  hasCompressor : Bool
  compress : String → CompressOutcome
  shortLabel : String → Option String
  analysisOf : String → Option String
  pagesOf : Content → Nat
  coverPrimary : String → String → Option (String × Content)
  coverFallback : String → String → String × Content
  tocBytes : List Exhibit → Content
  coverLetterFails : Bool
  coverLetterBytes : Content
  filingFails : Bool
  filingBytes : Content

/-- Output of the extract phase: the filesystem after materialization,
the working set `file_paths`, and the tracker calls made. -/
structure ExtractOut where
  fs : FS
  paths : List String
  evs : List Ev

/-- Output of the compress phase: the successful compression results in
order, the accumulated original/compressed byte totals, the tracker
calls made, and the message of the collaborator exception if one was
raised (which `process_func` does not catch per-item). -/
structure CompressOut where
  results : List CompResult
  orig : Nat
  compressed : Nat
  evs : List Ev
  fatal : Option String

/-- Output of the number phase. -/
structure NumberOut where
  fs : FS
  numbered : List String
  exhibits : List Exhibit
  totalPages : Nat
  evs : List Ev

/-- Output of the toc phase: the (possibly extended) numbered-files list. -/
structure TocOut where
  fs : FS
  numbered : List String
  evs : List Ev

/-- Output of the cover-letter and filing-instructions phases. -/
structure DocOut where
  fs : FS
  docPath : Option String
  evs : List Ev

/-- Output of the merge phase. -/
structure MergeOut where
  fs : FS
  outFile : Option String
  evs : List Ev

/-- Output of the finalize phase. -/
structure FinalOut where
  stats : Option Stats
  evs : List Ev

/-- The extract progress percentage `(i + 1) / max(len(files), 1) * 100`
(src/app.py line 2186). -/
def extractPct (i total : Nat) : Rat :=
  ((i : Rat) + 1) / (max total 1 : Nat) * 100

/-- The compress/number progress percentage
`(i + 1) / len(file_paths) * 100` (src/app.py lines 2218 and 2306). -/
def pctOf (i len : Nat) : Rat := ((i : Rat) + 1) / (len : Nat) * 100

/-- The uploaded-files half of the extract step
(src/app.py lines 2181-2186): write each upload at
`os.path.join(tmp_dir, file.name)`, append that path to the working set,
and report progress. -/
def uploadLoop (tmp : String) (total : Nat) :
    List UploadFile → Nat → FS → ExtractOut
  | [], _, fs => ⟨fs, [], []⟩
  | f :: rest, i, fs =>
      let p := pyJoin tmp f.name
      let out := uploadLoop tmp total rest (i + 1) (fsWrite fs p f.content)
      ⟨out.fs, p :: out.paths, Ev.prog "extract" (extractPct i total) :: out.evs⟩

/-- The error message recorded for an invalid `zip_files` entry
(src/app.py lines 2190 and 2197). -/
def zipErrMsg (fs : FS) : ZipInput → String
  | ZipInput.notString d => "Invalid zip file path: " ++ d
  | ZipInput.path p =>
      if ¬ isAbs p then "Invalid zip file path: " ++ p
      else if (fs p).isSome then "" else "Zip file not found: " ++ p

/-- Validity of a `zip_files` entry against the current filesystem:
a string, absolute, and existing (src/app.py lines 2189-2192). -/
def zipValidOn (fs : FS) : ZipInput → Bool
  | ZipInput.notString _ => false
  | ZipInput.path p => isAbs p && (fs p).isSome

/-- The destination a valid zip entry is copied to
(src/app.py line 2193). -/
def zipDest (tmp : String) : ZipInput → String
  | ZipInput.notString _ => ""
  | ZipInput.path p => pyJoin tmp (basename p)

/-- The bytes `shutil.copy` reads from a valid zip-entry source path. -/
def zipSrc (fs : FS) : ZipInput → Content
  | ZipInput.notString _ => []
  | ZipInput.path p => (fs p).getD []

/-- The archive-extracted half of the extract step
(src/app.py lines 2188-2197): invalid entries record an error against
the extract step and are skipped; valid entries are copied into the
working area and added to the working set. -/
def zipLoop (tmp : String) : List ZipInput → FS → ExtractOut
  | [], fs => ⟨fs, [], []⟩
  | z :: rest, fs =>
      if zipValidOn fs z then
        let out := zipLoop tmp rest
          (fsWrite fs (zipDest tmp z) (zipSrc fs z))
        ⟨out.fs, zipDest tmp z :: out.paths, out.evs⟩
      else
        let out := zipLoop tmp rest fs
        ⟨out.fs, out.paths,
          Ev.upd "extract" "error" (some (zipErrMsg fs z)) :: out.evs⟩

/-- The whole extract step (src/app.py lines 2177-2199): announce
running, materialize uploads then archive files, complete the step. -/
def extractStep (env : Env) (files : List UploadFile) (zips : List ZipInput) :
    ExtractOut :=
  let u := uploadLoop env.tmpDir files.length files 0 env.fs0
  let z := zipLoop env.tmpDir zips u.fs
  ⟨z.fs, u.paths ++ z.paths,
    Ev.upd "extract" "running" none
      :: ((u.evs ++ z.evs) ++ [Ev.comp "extract"])⟩

/-- The per-file compression loop (src/app.py lines 2212-2218): an
exception from the collaborator is not caught (the loop stops and the
message propagates); a returned dict is appended to the successful
results — and the byte totals accumulated — only when `success` is
truthy; progress is reported for the item either way. -/
def compressLoop (env : Env) (len : Nat) :
    List String → Nat → CompressOut
  | [], _ => ⟨[], 0, 0, [], none⟩
  | p :: rest, i =>
      match env.compress p with
      | CompressOutcome.raises m => ⟨[], 0, 0, [], some m⟩
      | CompressOutcome.returns r =>
          let out := compressLoop env len rest (i + 1)
          if r.success then
            ⟨r :: out.results, r.original_size + out.orig,
              r.compressed_size + out.compressed,
              Ev.prog "compress" (pctOf i len) :: out.evs, out.fatal⟩
          else
            ⟨out.results, out.orig, out.compressed,
              Ev.prog "compress" (pctOf i len) :: out.evs, out.fatal⟩

/-- The whole compress step (src/app.py lines 2201-2220): the loop runs
only when compression is enabled and a compressor collaborator exists;
`complete_step("compress")` sits outside that guard and is reached
whenever no exception was raised. -/
def compressStep (env : Env) (cfg : Config) (paths : List String) :
    CompressOut :=
  let core :=
    if cfg.enable_compression && env.hasCompressor then
      let out := compressLoop env paths.length paths 0
      ⟨out.results, out.orig, out.compressed,
        Ev.upd "compress" "running" none :: out.evs, out.fatal⟩
    else (⟨[], 0, 0, [], none⟩ : CompressOut)
  ⟨core.results, core.orig, core.compressed,
    core.evs ++ (if core.fatal = none then [Ev.comp "compress"] else []),
    core.fatal⟩

/-- One exhibit record as built in the body of the number loop
(src/app.py lines 2230-2303): display number per the numbering style;
title from the AI short label when one is produced, else the filename
stem (an AI fault is caught and leaves the fallback title, no
analysis); page count read from the materialized file; compression
info attached positionally from the successful-results list. -/
def mkExhibit (env : Env) (cfg : Config) (results : List CompResult)
    (fs : FS) (p : String) (i : Nat) : Exhibit :=
  { number := exhibitNumber cfg.numbering_style i
    title := match env.shortLabel p with
      | some l => l
      | none => stemOf p
    filename := basename p
    pages := match fs p with
      | some c => env.pagesOf c
      | none => 0
    compression := (results[i]?).map fun r =>
      { reduction := r.reduction_percent, method := r.method }
    analysis := env.analysisOf p }

/-- The numbered file produced for one item (src/app.py lines 2272-2293):
the cover-page collaborator call may fault, in which case the bare
fallback call `add_exhibit_number_with_cover(file_path, exhibit_num)` is
used; the collaborator writes the numbered file and returns its path. -/
def numberedFileFor (env : Env) (p num : String) : String × Content :=
  match env.coverPrimary p num with
  | some pc => pc
  | none => env.coverFallback p num

/-- The per-file numbering loop (src/app.py lines 2230-2306). -/
def numberLoop (env : Env) (cfg : Config) (results : List CompResult)
    (len : Nat) : List String → Nat → FS → NumberOut
  | [], _, fs => ⟨fs, [], [], 0, []⟩
  | p :: rest, i, fs =>
      let ex := mkExhibit env cfg results fs p i
      let nf := numberedFileFor env p (exhibitNumber cfg.numbering_style i)
      let out := numberLoop env cfg results len rest (i + 1)
        (fsWrite fs nf.1 nf.2)
      ⟨out.fs, nf.1 :: out.numbered, ex :: out.exhibits,
        ex.pages + out.totalPages,
        Ev.prog "number" (pctOf i len) :: out.evs⟩

/-- The whole number step (src/app.py lines 2222-2308). -/
def numberStep (env : Env) (cfg : Config) (results : List CompResult)
    (paths : List String) (fs : FS) : NumberOut :=
  let out := numberLoop env cfg results paths.length paths 0 fs
  ⟨out.fs, out.numbered, out.exhibits, out.totalPages,
    Ev.upd "number" "running" none :: (out.evs ++ [Ev.comp "number"])⟩

/-- The toc step (src/app.py lines 2310-2319): when enabled, the
table-of-contents collaborator (modelled from the spec §6 contract:
`generate_table_of_contents(exhibit_list, visa_type, destination_path)
-> file_path`, implementation not among the sources) writes the TOC at
`tmp_dir/TOC.pdf` and that path is inserted at the head of the
numbered-files list; `complete_step("toc")` sits outside the guard. -/
def tocStep (env : Env) (cfg : Config) (fs : FS) (exhibits : List Exhibit)
    (numbered : List String) : TocOut :=
  { fs :=
      if cfg.add_toc then
        fsWrite fs (pyJoin env.tmpDir "TOC.pdf") (env.tocBytes exhibits)
      else fs
    numbered :=
      if cfg.add_toc then pyJoin env.tmpDir "TOC.pdf" :: numbered
      else numbered
    evs :=
      if cfg.add_toc then
        [Ev.upd "toc" "running" none, Ev.comp "toc"]
      else [Ev.comp "toc"] }

/-- The cover-letter step (src/app.py lines 2321-2366): when enabled, the
DOCX template engine (modelled from the spec §6 contract, implementation
not among the sources) renders `Cover_Letter.docx`; a fault is caught and
leaves the path unset; `complete_step("cover")` sits outside the guard. -/
def coverStep (env : Env) (cfg : Config) (fs : FS) : DocOut :=
  { fs :=
      if cfg.add_cover_letter && !env.coverLetterFails then
        fsWrite fs (pyJoin env.tmpDir "Cover_Letter.docx") env.coverLetterBytes
      else fs
    docPath :=
      if cfg.add_cover_letter && !env.coverLetterFails then
        some (pyJoin env.tmpDir "Cover_Letter.docx")
      else none
    evs :=
      if cfg.add_cover_letter then
        [Ev.upd "cover" "running" none, Ev.comp "cover"]
      else [Ev.comp "cover"] }

/-- The filing-instructions step (src/app.py lines 2368-2403): the step
is announced running unconditionally; generation runs only when
requested, with the same caught-fault policy as the cover letter. -/
def filingStep (env : Env) (cfg : Config) (fs : FS) : DocOut :=
  { fs :=
      if cfg.add_filing_instructions && !env.filingFails then
        fsWrite fs (pyJoin env.tmpDir "Filing_Instructions.docx")
          env.filingBytes
      else fs
    docPath :=
      if cfg.add_filing_instructions && !env.filingFails then
        some (pyJoin env.tmpDir "Filing_Instructions.docx")
      else none
    evs := [Ev.upd "filing_instructions" "running" none,
      Ev.comp "filing_instructions"] }

/-- The merge step (src/app.py lines 2405-2435). Control flow from the
source; the merge collaborator `merge_pdfs(file_paths, destination)` is
modelled from the spec (§4.3 step 7 / §6: implementation not among the
sources) as concatenation of the input files in order. With numbered
files present: either merge all of them into `final_package.pdf` and
copy it to the persistent path, or copy the first numbered file there;
with none, `output_file` stays unset. -/
def mergeStep (env : Env) (cfg : Config) (fs : FS)
    (numbered : List String) : MergeOut :=
  { fs :=
      match numbered with
      | [] => fs
      | first :: _ =>
          if cfg.merge_pdfs then
            let content :=
              List.flatten (numbered.map fun p => (fs p).getD [])
            let fs1 := fsWrite fs (pyJoin env.tmpDir "final_package.pdf")
              content
            fsWrite fs1 env.persistPath
              ((fs1 (pyJoin env.tmpDir "final_package.pdf")).getD [])
          else fsWrite fs env.persistPath ((fs first).getD [])
    outFile :=
      match numbered with
      | [] => none
      | _ :: _ => some env.persistPath
    evs := [Ev.upd "merge" "running" none, Ev.comp "merge"] }

/-- The finalize step (src/app.py lines 2437-2457): persist the exhibit
list, and — when any file compressed successfully — the compression
stats, whose average reduction is
`(1 - compressed_size / max(original_size, 1)) * 100` when
`original_size > 0` and `0` otherwise. -/
def finalizeStep (cfg : Config) (orig compressed : Nat)
    (results : List CompResult) : FinalOut :=
  { stats :=
      match results with
      | [] => none
      | r0 :: _ =>
          some { original_size := orig
                 compressed_size := compressed
                 avg_reduction :=
                   if 0 < orig then
                     (1 - (compressed : Rat) / ((max orig 1 : Nat) : Rat)) * 100
                   else 0
                 method := r0.method
                 quality := cfg.quality_preset }
    evs := [Ev.upd "finalize" "running" none, Ev.comp "finalize"] }

/-- The dict returned by `process_func` together with the session-state
persistence performed in finalize. In the source the returned dict's
`exhibits` key is never filled in; the durable exhibit list of the
Result is `st.session_state.exhibit_list`, set during finalize
(src/app.py line 2441), and it is that list this field models. -/
structure RunOutcome where
  exhibits : List Exhibit
  total_pages : Nat
  original_size : Nat
  compressed_size : Nat
  output_file : Option String
  cover_letter_path : Option String
  filing_instructions_path : Option String
  stats : Option Stats

/-- Everything observable about one run of the pipeline function: the
tracker-call trace, the final filesystem, the outcome (or the fatal
error message, wrapped as in src/app.py line 2461), and — exposed for
specification purposes — the values of the local variables
`numbered_files` (after toc insertion) and `compression_results`. -/
structure RunResult where
  trace : List Ev
  fs : FS
  res : Except String RunOutcome
  numberedFiles : List String
  compressionResults : List CompResult

/-- Whether the run returned normally. -/
def RunResult.ok (r : RunResult) : Bool :=
  match r.res with
  | Except.ok _ => true
  | Except.error _ => false

/-- Modelled from the spec: §4.2 Background Processor failure semantics
(`components/background_processor.py` is not among the sources) — an
uncaught fault from the pipeline function makes the overall status
`error`; a normal return makes it `complete`. -/
def overallStatus (r : RunResult) : String :=
  match r.res with
  | Except.ok _ => "complete"
  | Except.error _ => "error"

/-- The Result's `output_file`, unset when the run aborted. -/
def resultOutputFile (r : RunResult) : Option String :=
  match r.res with
  | Except.ok o => o.output_file
  | Except.error _ => none

/-- The Result's exhibit list, empty when the run aborted. -/
def resultExhibits (r : RunResult) : List Exhibit :=
  match r.res with
  | Except.ok o => o.exhibits
  | Except.error _ => []

/-- The pipeline function `process_func` of `generate_exhibits_v2`
(src/app.py lines 2161-2461): the fixed sequence
extract → compress → number → toc → cover → filing_instructions →
merge → finalize. The only uncaught (fatal) fault the embedding can
produce is an exception from the compression collaborator, re-raised by
the outer handler as `RuntimeError("Failed to process exhibits: …")`. -/
def process_func (env : Env) (files : List UploadFile)
    (zips : List ZipInput) (cfg : Config) : RunResult :=
  let ex := extractStep env files zips
  let cs := compressStep env cfg ex.paths
  match cs.fatal with
  | some m =>
      { trace := ex.evs ++ cs.evs
        fs := ex.fs
        res := Except.error ("Failed to process exhibits: " ++ m)
        numberedFiles := []
        compressionResults := cs.results }
  | none =>
      let ns := numberStep env cfg cs.results ex.paths ex.fs
      let ts := tocStep env cfg ns.fs ns.exhibits ns.numbered
      let cv := coverStep env cfg ts.fs
      let fi := filingStep env cfg cv.fs
      let mg := mergeStep env cfg fi.fs ts.numbered
      let fz := finalizeStep cfg cs.orig cs.compressed cs.results
      { trace := ex.evs ++ cs.evs ++ ns.evs ++ ts.evs ++ cv.evs
          ++ fi.evs ++ mg.evs ++ fz.evs
        fs := mg.fs
        res := Except.ok
          { exhibits := ns.exhibits
            total_pages := ns.totalPages
            original_size := cs.orig
            compressed_size := cs.compressed
            output_file := mg.outFile
            cover_letter_path := cv.docPath
            filing_instructions_path := fi.docPath
            stats := fz.stats }
        numberedFiles := ts.numbered
        compressionResults := cs.results }

/-- The status table of the step state machine: insertion-ordered
`name ↦ status` pairs. -/
abbrev Steps := List (String × String)

/-- Set a step's status, creating the step if absent. -/
def updStatus (steps : Steps) (n s : String) : Steps :=
  if (steps.lookup n).isSome then
    steps.map fun e => if e.1 = n then (e.1, s) else e
  else steps ++ [(n, s)]

/-- Modelled from the spec: one tracker call applied to the step state
machine of §4.1 (`components/background_processor.py` is not among the
sources). `update_step` creates the step if absent and sets its status,
except that setting `running` on a step already `complete` is ignored;
`set_step_progress` does not change statuses; `complete_step` marks the
step complete except that a step that errored stays errored. -/
def applyEv (steps : Steps) : Ev → Steps
  | Ev.upd n s _ =>
      if s = "running" && steps.lookup n == some "complete" then steps
      else updStatus steps n s
  | Ev.prog _ _ => steps
  | Ev.comp n =>
      if steps.lookup n == some "error" then steps
      else updStatus steps n "complete"

/-- Modelled from the spec: the step table after a whole trace of
tracker calls, starting from the fresh (reset) state with no steps. -/
def stepsAfter (tr : List Ev) : Steps := tr.foldl applyEv []

/-- The status of one named step after a trace. -/
def stepStatusAfter (tr : List Ev) (n : String) : Option String :=
  (stepsAfter tr).lookup n

/-- The step names of the pipeline, in execution order. -/
def pipelineStepNames : List String :=
  ["extract", "compress", "number", "toc", "cover",
   "filing_instructions", "merge", "finalize"]

/-- Scanner for the claim "complete_step is invoked only on a step that
is currently running": walk the trace keeping the status that the
`update_step` calls for step `n` dictate, and demand that every
`complete_step(n)` happens while that status is `running`. -/
def completeWhileRunningAux (n : String) : List Ev → String → Bool
  | [], _ => true
  | Ev.upd m s _ :: rest, st =>
      if m = n then completeWhileRunningAux n rest s
      else completeWhileRunningAux n rest st
  | Ev.prog _ _ :: rest, st => completeWhileRunningAux n rest st
  | Ev.comp m :: rest, st =>
      if m = n then
        decide (st = "running") && completeWhileRunningAux n rest "complete"
      else completeWhileRunningAux n rest st

/-- Every `complete_step(n)` in the trace happens while step `n` is
running (in particular, after it was announced running and not after it
was set to error without being re-announced). -/
def completeWhileRunning (tr : List Ev) (n : String) : Bool :=
  completeWhileRunningAux n tr "pending"

/-- The percentages passed to `set_step_progress` for step `n`, in call
order. -/
def progsOf (tr : List Ev) (n : String) : List Rat :=
  tr.filterMap fun e =>
    match e with
    | Ev.prog m p => if m = n then some p else none
    | _ => none

/-- The Result's persisted compression stats, unset when the run aborted. -/
def resultStats (r : RunResult) : Option Stats :=
  match r.res with
  | Except.ok o => o.stats
  | Except.error _ => none

/-- An initially empty filesystem. -/
def emptyFS : FS := fun _ => none

/-- A concrete benign environment: every collaborator succeeds. -/
def benignEnv : Env :=
  { tmpDir := "/t", persistPath := "/p/out.pdf", fs0 := emptyFS,
    hasCompressor := true,
    compress := fun _ => CompressOutcome.returns ⟨true, 10, 5, 50, "gs"⟩,
    shortLabel := fun _ => none, analysisOf := fun _ => none,
    pagesOf := fun c => c.length,
    coverPrimary := fun p _ => some (p ++ ".num", [7]),
    coverFallback := fun p _ => (p ++ ".fb", [8]),
    tocBytes := fun _ => [9],
    coverLetterFails := false, coverLetterBytes := [3],
    filingFails := false, filingBytes := [4] }

/-- Like `benignEnv`, except the compression collaborator raises an
exception for the second input file. -/
def envRaiseB : Env :=
  { benignEnv with
    compress := fun p =>
      if p = "/t/b.pdf" then CompressOutcome.raises "boom"
      else CompressOutcome.returns ⟨true, 10, 5, 50, "gs"⟩ }

/-- Like `benignEnv`, except the compression collaborator reports failure
(`success = false`) for the second input file, and distinct stats for
the third. -/
def envSoftB : Env :=
  { benignEnv with
    compress := fun p =>
      if p = "/t/b.pdf" then CompressOutcome.returns ⟨false, 10, 5, 50, "gs"⟩
      else if p = "/t/c.pdf" then CompressOutcome.returns ⟨true, 8, 4, 25, "sp"⟩
      else CompressOutcome.returns ⟨true, 10, 5, 50, "gs"⟩ }

/-- Three uploaded input files. -/
def files3 : List UploadFile :=
  [⟨"a.pdf", [1, 2]⟩, ⟨"b.pdf", [3]⟩, ⟨"c.pdf", [4, 5, 6]⟩]

/-- A baseline configuration with compression enabled and every optional
document feature off. -/
def cfgBase : Config :=
  { enable_compression := true, quality_preset := "q",
    smallpdf_api_key := none, numbering_style := "letters",
    add_toc := false, add_cover_letter := false,
    add_filing_instructions := false, merge_pdfs := true,
    include_full_text_images := false, visa_type := "O-1" }

/-- C1 counterexample: with 3 inputs and compression enabled, an
exception raised by the compression collaborator for the second file is
not caught by the per-file loop — it propagates, the run aborts with the
wrapped fatal message, the overall status is `error` (not `complete`),
and no exhibit list is delivered. -/
theorem c1_counterexample :
    (process_func envRaiseB files3 [] cfgBase).res
        = Except.error "Failed to process exhibits: boom"
      ∧ overallStatus (process_func envRaiseB files3 [] cfgBase) = "error"
      ∧ resultExhibits (process_func envRaiseB files3 [] cfgBase) = [] :=
  ⟨rfl, rfl, rfl⟩

/-- C1 amended: an exception from the compress call is fatal (status
`error`); only a compression failure reported by `success = false` is
swallowed. In the swallowed case with 3 inputs and file 2 failing, the
run completes with all 3 exhibits, but the compression info is attached
positionally from the successful-results list: exhibit 2 carries the
stats of file 3 (reduction 25, method "sp"), and exhibit 3 carries
none — not "exhibit 2 lacks compression info". -/
theorem c1_amended :
    overallStatus (process_func envRaiseB files3 [] cfgBase) = "error"
      ∧ overallStatus (process_func envSoftB files3 [] cfgBase) = "complete"
      ∧ resultExhibits (process_func envSoftB files3 [] cfgBase) =
        [{ number := "A", title := "a", filename := "a.pdf", pages := 2,
           compression := some { reduction := 50, method := "gs" },
           analysis := none },
         { number := "B", title := "b", filename := "b.pdf", pages := 1,
           compression := some { reduction := 25, method := "sp" },
           analysis := none },
         { number := "C", title := "c", filename := "c.pdf", pages := 3,
           compression := none, analysis := none }] :=
  ⟨rfl, rfl, rfl⟩

/-- The empty-input configuration with TOC generation enabled. -/
def cfgEmptyToc : Config :=
  { cfgBase with enable_compression := false, add_toc := true }

/-- C3 counterexample: with zero input files but TOC generation enabled,
the generated TOC becomes the sole numbered file, so the merge step sets
`output_file` (to the persistent package path) instead of leaving it
unset — while the run still completes. -/
theorem c3_counterexample :
    resultOutputFile (process_func benignEnv [] [] cfgEmptyToc)
        = some "/p/out.pdf"
      ∧ resultOutputFile (process_func benignEnv [] [] cfgEmptyToc) ≠ none
      ∧ overallStatus (process_func benignEnv [] [] cfgEmptyToc)
        = "complete" :=
  ⟨rfl, by decide, rfl⟩

/-- An environment/configuration pair that compresses one 2-byte-original
file down to 1 byte, for the finalize-stats computation. -/
def envHalf : Env :=
  { benignEnv with
    compress := fun _ => CompressOutcome.returns ⟨true, 2, 1, 50, "gs"⟩ }

/-- C5 counterexample: for a run whose compression totals are
`original_size = 2`, `compressed_size = 1`, finalize persists
`avg_reduction = 50` — the percentage `(1 - 1/2) * 100` — while the
claim's formula `1 - compressed/original` gives `1/2`; the persisted
value is not the claimed one. -/
theorem c5_counterexample :
    (resultStats (process_func envHalf [⟨"a.pdf", [1, 2]⟩] [] cfgBase)).map
        Stats.avg_reduction = some 50
      ∧ (resultStats (process_func envHalf [⟨"a.pdf", [1, 2]⟩] [] cfgBase)).map
        Stats.original_size = some 2
      ∧ (resultStats (process_func envHalf [⟨"a.pdf", [1, 2]⟩] [] cfgBase)).map
        Stats.compressed_size = some 1
      ∧ (1 - (1 : Rat) / 2) ≠ 50 := by
  have e : (resultStats (process_func envHalf [⟨"a.pdf", [1, 2]⟩] [] cfgBase)).map
      Stats.avg_reduction
      = some ((1 - ((1 : Nat) : Rat) / (((max 2 1 : Nat)) : Rat)) * 100) := rfl
  refine ⟨?_, rfl, rfl, by norm_num⟩
  rw [e]
  norm_num

/-- The baseline configuration with compression disabled. -/
def cfgNoComp : Config := { cfgBase with enable_compression := false }

/-- C8 counterexample: with compression disabled,
`complete_step("compress")` (src/app.py line 2220) sits outside the
feature guard and is invoked on a step that was never announced
running — the trace fails the "complete only while running" scan for
`compress`, while the `comp "compress"` call is present. -/
theorem c8_counterexample :
    completeWhileRunning (process_func benignEnv [] [] cfgNoComp).trace
        "compress" = false
      ∧ (process_func benignEnv [] [] cfgNoComp).trace.contains
        (Ev.comp "compress") = true :=
  ⟨rfl, rfl⟩

theorem pyJoin_inj (a b c : String) : pyJoin a b = pyJoin a c ↔ b = c := by
  constructor
  · intro h
    have hd := congrArg String.data h
    simp only [pyJoin, String.data_append] at hd
    have := List.append_cancel_left hd
    exact String.ext this
  · intro h
    rw [h]

theorem getLast?_cons_ne {α : Type} (a : α) (l : List α) (h : l ≠ []) :
    (a :: l).getLast? = l.getLast? := by
  rw [show a :: l = [a] ++ l from rfl, List.getLast?_append_of_ne_nil _ h]

theorem uploadLoop_paths (tmp : String) (total : Nat) (files : List UploadFile)
    (i : Nat) (fs : FS) :
    (uploadLoop tmp total files i fs).paths
      = files.map fun f => pyJoin tmp f.name := by
  induction files generalizing i fs with
  | nil => rfl
  | cons f rest ih =>
      simp only [uploadLoop, List.map_cons]
      rw [ih]

theorem uploadLoop_fs (tmp : String) (total : Nat) (files : List UploadFile)
    (i : Nat) (fs : FS) (q : String) :
    (uploadLoop tmp total files i fs).fs q
      = match (files.filter fun f => pyJoin tmp f.name = q).getLast? with
        | some f => some f.content
        | none => fs q := by
  induction files generalizing i fs with
  | nil => rfl
  | cons f rest ih =>
      simp only [uploadLoop]
      rw [ih]
      by_cases hf : pyJoin tmp f.name = q
      · have hcons : ((f :: rest).filter fun g => pyJoin tmp g.name = q)
            = f :: (rest.filter fun g => pyJoin tmp g.name = q) := by
          simp [List.filter_cons, hf]
        rw [hcons]
        rcases hrest : (rest.filter fun g => pyJoin tmp g.name = q).getLast? with
          _ | g
        · have hnil : (rest.filter fun g => pyJoin tmp g.name = q) = [] := by
            cases hr : (rest.filter fun g => pyJoin tmp g.name = q) with
            | nil => rfl
            | cons x xs =>
                rw [hr] at hrest
                rw [List.getLast?_eq_getLast_of_ne_nil (by simp)] at hrest
                cases hrest
          rw [hnil]
          simp [List.getLast?, fsWrite, hf]
        · have hne : (rest.filter fun g => pyJoin tmp g.name = q) ≠ [] := by
            intro hnil
            rw [hnil] at hrest
            cases hrest
          rw [getLast?_cons_ne _ _ hne, hrest]
      · have hcons : ((f :: rest).filter fun g => pyJoin tmp g.name = q)
            = rest.filter fun g => pyJoin tmp g.name = q := by
          simp [List.filter_cons, hf]
        rw [hcons]
        rcases hrest : (rest.filter fun g => pyJoin tmp g.name = q).getLast? with
          _ | g
        · simp only [fsWrite]
          rw [if_neg fun h => hf h.symm]
        · rw [hrest]

/-- C10: the extract step materializes the i-th upload at
`os.path.join(tmp_dir, file.name)` — so the first `len(files)` working-set
entries are exactly those joined paths, two uploads with equal filenames
get the same working-set path, and the file at a name's joined path
holds the content of the last upload bearing that name (later writes
overwrite earlier ones). -/
theorem c10_extract_overwrite (env : Env) (files : List UploadFile)
    (zips : List ZipInput) :
    (extractStep env files zips).paths.take files.length
        = (files.map fun f => pyJoin env.tmpDir f.name)
      ∧ (∀ i j (hi : i < files.length) (hj : j < files.length),
          (files.get ⟨i, hi⟩).name = (files.get ⟨j, hj⟩).name →
          (files.map fun f => pyJoin env.tmpDir f.name).get
              ⟨i, by simpa using hi⟩
            = (files.map fun f => pyJoin env.tmpDir f.name).get
              ⟨j, by simpa using hj⟩)
      ∧ ∀ n f,
          (files.filter fun g => g.name = n).getLast? = some f →
          (uploadLoop env.tmpDir files.length files 0 env.fs0).fs
            (pyJoin env.tmpDir n) = some f.content := by
  refine ⟨?_, ?_, ?_⟩
  · simp only [extractStep]
    rw [uploadLoop_paths]
    rw [show files.length = (files.map fun f => pyJoin env.tmpDir f.name).length
        from (List.length_map _ _).symm]
    exact List.take_left _ _
  · intro i j hi hj hname
    rw [List.get_map, List.get_map, hname]
  · intro n f hlast
    rw [uploadLoop_fs]
    have hfeq : (files.filter fun g =>
          pyJoin env.tmpDir g.name = pyJoin env.tmpDir n)
        = files.filter fun g => g.name = n := by
      apply List.filter_congr
      intro g _
      simp [pyJoin_inj]
    rw [hfeq, hlast]

/-- Two uploads sharing the filename `x.pdf`, with different bytes. -/
def filesDup : List UploadFile := [⟨"x.pdf", [1]⟩, ⟨"x.pdf", [2]⟩]

/-- C10 witness: with two uploads both named `x.pdf`, the working-area
file `/t/x.pdf` ends up holding the second upload's bytes. -/
theorem c10_witness :
    (filesDup.filter fun g => g.name = "x.pdf").getLast?
        = some ⟨"x.pdf", [2]⟩
      ∧ (uploadLoop benignEnv.tmpDir filesDup.length filesDup 0
          benignEnv.fs0).fs (pyJoin benignEnv.tmpDir "x.pdf")
        = some [2] :=
  ⟨rfl, (c10_extract_overwrite benignEnv filesDup []).2.2 "x.pdf"
    ⟨"x.pdf", [2]⟩ rfl⟩

theorem numberLoop_pages (env : Env) (cfg : Config)
    (results : List CompResult) (len : Nat) (xs : List String) (i : Nat)
    (fs : FS) :
    (numberLoop env cfg results len xs i fs).totalPages
      = ((numberLoop env cfg results len xs i fs).exhibits.map
          Exhibit.pages).sum := by
  induction xs generalizing i fs with
  | nil => rfl
  | cons p rest ih =>
      simp only [numberLoop, List.map_cons, List.sum_cons]
      rw [ih]

/-- C5 amended: for every run that completes, the durable Result carries
`total_pages` equal to the sum of the exhibits' page counts, compression
stats are persisted exactly when some file compressed successfully, and
the persisted average reduction is the **percentage**
`(1 - compressed_size / max(original_size, 1)) * 100` when
`original_size > 0` and `0` otherwise — not the plain ratio
`1 - compressed/original` of the claim. -/
theorem c5_amended (env : Env) (files : List UploadFile)
    (zips : List ZipInput) (cfg : Config) (out : RunOutcome)
    (h : (process_func env files zips cfg).res = Except.ok out) :
    out.total_pages = (out.exhibits.map Exhibit.pages).sum
      ∧ ((process_func env files zips cfg).compressionResults = []
          ↔ out.stats = none)
      ∧ ∀ s, out.stats = some s →
          s.original_size = out.original_size
            ∧ s.compressed_size = out.compressed_size
            ∧ s.avg_reduction =
              (if 0 < out.original_size then
                (1 - (out.compressed_size : Rat)
                  / ((max out.original_size 1 : Nat) : Rat)) * 100
              else 0) := by
  rcases hf : (compressStep env cfg (extractStep env files zips).paths).fatal
    with _ | m
  · simp only [process_func, hf] at h ⊢
    rw [Except.ok.injEq] at h
    subst h
    refine ⟨numberLoop_pages _ _ _ _ _ _ _, ?_, ?_⟩
    · rcases hres : (compressStep env cfg
          (extractStep env files zips).paths).results with _ | ⟨r0, rs⟩
      · simp [finalizeStep, hres]
      · simp [finalizeStep, hres]
    · intro s hs
      rcases hres : (compressStep env cfg
          (extractStep env files zips).paths).results with _ | ⟨r0, rs⟩
      · simp only [finalizeStep, hres] at hs
        cases hs
      · simp only [finalizeStep, hres] at hs
        rw [Option.some.injEq] at hs
        subst hs
        exact ⟨rfl, rfl, rfl⟩
  · simp only [process_func, hf] at h
    cases h

/-- The outcome of the concrete one-file compression run. -/
def outHalf : RunOutcome :=
  match (process_func envHalf [⟨"a.pdf", [1, 2]⟩] [] cfgBase).res with
  | Except.ok o => o
  | Except.error _ =>
      { exhibits := [], total_pages := 0, original_size := 0,
        compressed_size := 0, output_file := none,
        cover_letter_path := none, filing_instructions_path := none,
        stats := none }

/-- C5 witness: the amended statement applied to the concrete one-file
compression run. -/
theorem c5_witness :
    (process_func envHalf [⟨"a.pdf", [1, 2]⟩] [] cfgBase).res
        = Except.ok outHalf
      ∧ outHalf.total_pages = (outHalf.exhibits.map Exhibit.pages).sum :=
  ⟨rfl, (c5_amended envHalf [⟨"a.pdf", [1, 2]⟩] [] cfgBase outHalf rfl).1⟩

/-- C4: the toc step prepends the TOC path to the numbered files exactly
when TOC generation is enabled; then, whenever the numbered-files list is
non-empty, the merge step always sets `output_file` to the persistent
package path, whose content is the concatenation of all numbered files
in execution order (TOC first, if present) when merging is enabled, and
a copy of the first numbered file when merging is disabled; with zero
numbered files `output_file` is left unset, and a completed run with
zero numbered files is still a success with `output_file` unset. -/
theorem c4_merge (env : Env) (cfg : Config) (fs fs' : FS)
    (exhibits : List Exhibit) (numbered nb : List String)
    (hnb : nb = (tocStep env cfg fs exhibits numbered).numbered) :
    nb = (if cfg.add_toc then [pyJoin env.tmpDir "TOC.pdf"] else [])
        ++ numbered
      ∧ (mergeStep env cfg fs' nb).outFile
        = (if nb = [] then none else some env.persistPath)
      ∧ (nb ≠ [] → cfg.merge_pdfs = true →
          (mergeStep env cfg fs' nb).fs env.persistPath
            = some (List.flatten (nb.map fun p => (fs' p).getD [])))
      ∧ (nb ≠ [] → cfg.merge_pdfs = false →
          (mergeStep env cfg fs' nb).fs env.persistPath
            = some ((fs' (nb.headD "")).getD []))
      ∧ ∀ (env₂ : Env) (files : List UploadFile) (zips : List ZipInput)
          (cfg₂ : Config),
          (process_func env₂ files zips cfg₂).ok = true →
          (process_func env₂ files zips cfg₂).numberedFiles = [] →
          resultOutputFile (process_func env₂ files zips cfg₂) = none := by
  refine ⟨?_, ?_, ?_, ?_, ?_⟩
  · cases htoc : cfg.add_toc <;> simp [tocStep, hnb, htoc]
  · cases nb with
    | nil => simp [mergeStep]
    | cons first rest => simp [mergeStep]
  · intro hne hm
    cases nb with
    | nil => exact absurd rfl hne
    | cons first rest =>
        simp only [mergeStep, hm, if_true, fsWrite]
        rfl
  · intro hne hm
    cases nb with
    | nil => exact absurd rfl hne
    | cons first rest =>
        simp only [mergeStep, hm, Bool.false_eq_true, if_false, fsWrite]
        simp
  · intro env₂ files zips cfg₂ hok hnil
    rcases hf : (compressStep env₂ cfg₂
        (extractStep env₂ files zips).paths).fatal with _ | m
    · simp only [process_func, hf] at hnil ⊢
      simp only [resultOutputFile, mergeStep, hnil]
    · simp only [process_func, hf, RunResult.ok] at hok
      cases hok

/-- C4 witness: the merge-step statement applied to a concrete
single-numbered-file run state (no TOC, merging enabled). -/
theorem c4_witness :
    (mergeStep benignEnv cfgBase (fsWrite emptyFS "/t/a" [5])
        ["/t/a"]).outFile = some "/p/out.pdf"
      ∧ (mergeStep benignEnv cfgBase (fsWrite emptyFS "/t/a" [5])
          ["/t/a"]).fs "/p/out.pdf"
        = some (List.flatten (["/t/a"].map fun p =>
            ((fsWrite emptyFS "/t/a" [5]) p).getD []))
      ∧ List.flatten (["/t/a"].map fun p =>
          ((fsWrite emptyFS "/t/a" [5]) p).getD []) = [5] := by
  have h := c4_merge benignEnv cfgBase emptyFS (fsWrite emptyFS "/t/a" [5])
    [] ["/t/a"] ["/t/a"] rfl
  refine ⟨?_, h.2.2.1 (by decide) rfl, by decide⟩
  rw [h.2.1]
  rfl

set_option maxHeartbeats 3000000 in
/-- C3 amended: with zero input files the run always completes — every
pipeline step ends `complete` (in execution order), the exhibit list is
empty and the overall status is `complete` for every configuration — but
`output_file` is unset only when TOC generation is disabled: with TOC
enabled the generated TOC becomes the sole numbered file and
`output_file` is set to the persistent package path. -/
theorem c3_amended (env : Env) (cfg : Config) :
    (process_func env [] [] cfg).ok = true
      ∧ resultExhibits (process_func env [] [] cfg) = []
      ∧ resultOutputFile (process_func env [] [] cfg)
        = (if cfg.add_toc then some env.persistPath else none)
      ∧ overallStatus (process_func env [] [] cfg) = "complete"
      ∧ stepsAfter (process_func env [] [] cfg).trace
        = pipelineStepNames.map fun n => (n, "complete") := by
  rcases env with ⟨tmp, persist, fs0, hc, cmp, lbl, ana, pg, cp, cfb, tb,
    clf, clb, ff, fb⟩
  rcases cfg with ⟨ec, qp, key, nst, toc, cov, fil, mer, inc, visa⟩
  cases hc <;> cases ec <;> cases toc <;> cases cov <;>
    exact ⟨rfl, rfl, rfl, rfl, rfl⟩

theorem zipValidOn_congr (fs fs' : FS) (z : ZipInput)
    (h : ∀ p, z = ZipInput.path p → fs p = fs' p) :
    zipValidOn fs z = zipValidOn fs' z := by
  cases z with
  | notString d => rfl
  | path p => simp [zipValidOn, h p rfl]

theorem zipErrMsg_congr (fs fs' : FS) (z : ZipInput)
    (h : ∀ p, z = ZipInput.path p → fs p = fs' p) :
    zipErrMsg fs z = zipErrMsg fs' z := by
  cases z with
  | notString d => rfl
  | path p => simp [zipErrMsg, h p rfl]

theorem zipLoop_fs_mono (tmp : String) (zips : List ZipInput) (fs : FS)
    (q : String) (h : (fs q).isSome) :
    (((zipLoop tmp zips fs).fs) q).isSome := by
  induction zips generalizing fs with
  | nil => exact h
  | cons z rest ih =>
      by_cases hv : zipValidOn fs z = true
      · simp only [zipLoop, hv, if_true]
        apply ih
        simp only [fsWrite]
        by_cases hq : q = zipDest tmp z
        · simp [hq]
        · simp only [if_neg hq]
          exact h
      · simp only [Bool.not_eq_true] at hv
        simp only [zipLoop, hv, Bool.false_eq_true, if_false]
        exact ih fs h

theorem zipLoop_spec (tmp : String) (zips : List ZipInput) (fs fs0 : FS)
    (hag : ∀ p, ZipInput.path p ∈ zips → fs p = fs0 p)
    (hdis : ∀ p q, ZipInput.path p ∈ zips → ZipInput.path q ∈ zips →
        p ≠ pyJoin tmp (basename q)) :
    (zipLoop tmp zips fs).paths
        = (zips.filter (zipValidOn fs0)).map (zipDest tmp)
      ∧ (zipLoop tmp zips fs).evs
        = (zips.filter fun z => !(zipValidOn fs0 z)).map
            (fun z => Ev.upd "extract" "error" (some (zipErrMsg fs0 z)))
      ∧ ∀ z ∈ zips, zipValidOn fs0 z = true →
          (((zipLoop tmp zips fs).fs) (zipDest tmp z)).isSome := by
  induction zips generalizing fs with
  | nil =>
      refine ⟨rfl, rfl, ?_⟩
      intro z hz
      cases hz
  | cons z rest ih =>
      have hagz : ∀ p, z = ZipInput.path p → fs p = fs0 p := by
        intro p hp
        subst hp
        exact hag p (List.mem_cons_self _ _)
      have hv0 : zipValidOn fs z = zipValidOn fs0 z :=
        zipValidOn_congr fs fs0 z hagz
      by_cases hv : zipValidOn fs z = true
      · have hvf0 : zipValidOn fs0 z = true := hv0.symm.trans hv
        have hrestag : ∀ p, ZipInput.path p ∈ rest →
            (fsWrite fs (zipDest tmp z) (zipSrc fs z)) p = fs0 p := by
          intro p hp
          have hne : p ≠ zipDest tmp z := by
            cases z with
            | notString d => simp [zipValidOn] at hv
            | path q =>
                exact hdis p q (List.mem_cons_of_mem _ hp)
                  (List.mem_cons_self _ _)
          simp only [fsWrite, if_neg hne]
          exact hag p (List.mem_cons_of_mem _ hp)
        have ihh := ih _ hrestag (fun p q hp hq =>
          hdis p q (List.mem_cons_of_mem _ hp) (List.mem_cons_of_mem _ hq))
        refine ⟨?_, ?_, ?_⟩
        · simp only [zipLoop, hv, if_true, List.filter_cons, hvf0,
            List.map_cons]
          rw [ihh.1]
        · simp only [zipLoop, hv, if_true, List.filter_cons, hvf0,
            Bool.not_true, Bool.false_eq_true, if_false]
          exact ihh.2.1
        · intro z' hz' hvz'
          rcases List.mem_cons.mp hz' with hz1 | hz2
          · subst hz1
            simp only [zipLoop, hv, if_true]
            apply zipLoop_fs_mono
            simp [fsWrite]
          · simp only [zipLoop, hv, if_true]
            exact ihh.2.2 z' hz2 hvz'
      · have hv' : zipValidOn fs z = false := by
          simpa using hv
        have hv0' : zipValidOn fs0 z = false := hv0.symm.trans hv'
        have ihh := ih fs (fun p hp => hag p (List.mem_cons_of_mem _ hp))
          (fun p q hp hq =>
            hdis p q (List.mem_cons_of_mem _ hp) (List.mem_cons_of_mem _ hq))
        refine ⟨?_, ?_, ?_⟩
        · simp only [zipLoop, hv', Bool.false_eq_true, if_false,
            List.filter_cons, hv0']
          exact ihh.1
        · simp only [zipLoop, hv', Bool.false_eq_true, if_false,
            List.filter_cons, hv0', Bool.not_false, if_true, List.map_cons]
          rw [ihh.2.1, zipErrMsg_congr fs fs0 z hagz]
        · intro z' hz' hvz'
          rcases List.mem_cons.mp hz' with hz1 | hz2
          · subst hz1
            rw [hvz'] at hv0'
            cases hv0'
          · simp only [zipLoop, hv', Bool.false_eq_true, if_false]
            exact ihh.2.2 z' hz2 hvz'

theorem process_ok_of_no_compression (env : Env) (files : List UploadFile)
    (zips : List ZipInput) (cfg : Config)
    (h : cfg.enable_compression = false) :
    (process_func env files zips cfg).ok = true := by
  have hfat : (compressStep env cfg
      (extractStep env files zips).paths).fatal = none := by
    simp [compressStep, h]
  simp only [process_func, hfat, RunResult.ok]

/-- C7: during the extract step, an archive-extracted entry that is not
an absolute string path, or whose path does not exist, contributes an
error message recorded against the extract step and is omitted from the
working set, while every valid entry is materialized into the working
area (its destination file exists afterwards) and appended to the
working set after the uploads; none of this aborts the run (with
compression disabled the embedded run has no other fatal source and
always completes). The hypothesis rules out an archive source path
colliding with a copy destination inside the fresh private working
directory. -/
theorem c7_invalid_zip_contained (env : Env) (files : List UploadFile)
    (zips : List ZipInput) (cfg : Config)
    (hdis : ∀ p q, ZipInput.path p ∈ zips → ZipInput.path q ∈ zips →
        p ≠ pyJoin env.tmpDir (basename q)) :
    (zipLoop env.tmpDir zips
        (uploadLoop env.tmpDir files.length files 0 env.fs0).fs).paths
        = (zips.filter (zipValidOn
            (uploadLoop env.tmpDir files.length files 0 env.fs0).fs)).map
          (zipDest env.tmpDir)
      ∧ (zipLoop env.tmpDir zips
          (uploadLoop env.tmpDir files.length files 0 env.fs0).fs).evs
        = (zips.filter fun z => !(zipValidOn
            (uploadLoop env.tmpDir files.length files 0 env.fs0).fs z)).map
          (fun z => Ev.upd "extract" "error" (some (zipErrMsg
            (uploadLoop env.tmpDir files.length files 0 env.fs0).fs z)))
      ∧ (∀ z ∈ zips, zipValidOn
            (uploadLoop env.tmpDir files.length files 0 env.fs0).fs z = true →
          (((zipLoop env.tmpDir zips
              (uploadLoop env.tmpDir files.length files 0 env.fs0).fs).fs)
            (zipDest env.tmpDir z)).isSome)
      ∧ (extractStep env files zips).paths
        = (uploadLoop env.tmpDir files.length files 0 env.fs0).paths
          ++ (zipLoop env.tmpDir zips
            (uploadLoop env.tmpDir files.length files 0 env.fs0).fs).paths
      ∧ (cfg.enable_compression = false →
          (process_func env files zips cfg).ok = true) := by
  have h := zipLoop_spec env.tmpDir zips
    (uploadLoop env.tmpDir files.length files 0 env.fs0).fs
    (uploadLoop env.tmpDir files.length files 0 env.fs0).fs
    (fun _ _ => rfl) hdis
  exact ⟨h.1, h.2.1, h.2.2, rfl,
    fun hc => process_ok_of_no_compression env files zips cfg hc⟩

/-- C7 witness: a single non-string archive entry is recorded as an
extract-step error, omitted from the working set, and the run still
completes. -/
theorem c7_witness :
    (zipLoop benignEnv.tmpDir [ZipInput.notString "42"]
        (uploadLoop benignEnv.tmpDir 0 [] 0 benignEnv.fs0).fs).evs
        = [Ev.upd "extract" "error" (some "Invalid zip file path: 42")]
      ∧ (zipLoop benignEnv.tmpDir [ZipInput.notString "42"]
          (uploadLoop benignEnv.tmpDir 0 [] 0 benignEnv.fs0).fs).paths = []
      ∧ (process_func benignEnv [] [ZipInput.notString "42"]
          cfgNoComp).ok = true := by
  have h := c7_invalid_zip_contained benignEnv [] [ZipInput.notString "42"]
    cfgNoComp (by intro p q hp; simp at hp)
  exact ⟨h.2.1.trans rfl, h.1.trans rfl, h.2.2.2.2 rfl⟩

theorem progsOf_nil (n : String) : progsOf [] n = [] := rfl

theorem progsOf_append (tr tr' : List Ev) (n : String) :
    progsOf (tr ++ tr') n = progsOf tr n ++ progsOf tr' n :=
  List.filterMap_append _ _ _

theorem progsOf_upd (nm st : String) (msg : Option String) (tr : List Ev)
    (n : String) :
    progsOf (Ev.upd nm st msg :: tr) n = progsOf tr n := rfl

theorem progsOf_comp (nm : String) (tr : List Ev) (n : String) :
    progsOf (Ev.comp nm :: tr) n = progsOf tr n := rfl

theorem progsOf_prog_self (nm : String) (p : Rat) (tr : List Ev) :
    progsOf (Ev.prog nm p :: tr) nm = p :: progsOf tr nm := by
  simp [progsOf]

theorem progsOf_prog_ne (nm : String) (p : Rat) (tr : List Ev) (n : String)
    (h : ¬ nm = n) :
    progsOf (Ev.prog nm p :: tr) n = progsOf tr n := by
  simp [progsOf, h]

theorem uploadLoop_progs_extract (tmp : String) (total : Nat)
    (files : List UploadFile) (i : Nat) (fs : FS) :
    progsOf (uploadLoop tmp total files i fs).evs "extract"
      = (List.range' i files.length).map fun k => extractPct k total := by
  induction files generalizing i fs with
  | nil => rfl
  | cons f rest ih =>
      simp only [uploadLoop, List.length_cons, List.range'_succ,
        List.map_cons]
      rw [progsOf_prog_self, ih]

theorem uploadLoop_progs_ne (tmp : String) (total : Nat)
    (files : List UploadFile) (i : Nat) (fs : FS) (n : String)
    (h : ¬ "extract" = n) :
    progsOf (uploadLoop tmp total files i fs).evs n = [] := by
  induction files generalizing i fs with
  | nil => rfl
  | cons f rest ih =>
      simp only [uploadLoop]
      rw [progsOf_prog_ne _ _ _ _ h, ih]

theorem zipLoop_progs (tmp : String) (zips : List ZipInput) (fs : FS)
    (n : String) :
    progsOf (zipLoop tmp zips fs).evs n = [] := by
  induction zips generalizing fs with
  | nil => rfl
  | cons z rest ih =>
      by_cases hv : zipValidOn fs z = true
      · simp only [zipLoop, hv, if_true]
        exact ih _
      · simp only [Bool.not_eq_true] at hv
        simp only [zipLoop, hv, Bool.false_eq_true, if_false]
        rw [progsOf_upd, ih]

theorem compressLoop_progs (env : Env) (len : Nat) (xs : List String)
    (i : Nat) :
    ∃ j, j ≤ xs.length ∧
      progsOf (compressLoop env len xs i).evs "compress"
        = (List.range' i j).map fun k => pctOf k len := by
  induction xs generalizing i with
  | nil => exact ⟨0, by simp, rfl⟩
  | cons p rest ih =>
      rcases hc : env.compress p with m | r
      · refine ⟨0, by simp, ?_⟩
        simp [compressLoop, hc, progsOf]
      · rcases ih (i + 1) with ⟨j, hj, hprogs⟩
        refine ⟨j + 1, by simpa using hj, ?_⟩
        rcases hs : r.success with _ | _
        · simp only [compressLoop, hc, hs, Bool.false_eq_true, if_false]
          rw [progsOf_prog_self, hprogs, List.range'_succ, List.map_cons]
        · simp only [compressLoop, hc, hs, if_true]
          rw [progsOf_prog_self, hprogs, List.range'_succ, List.map_cons]

theorem compressLoop_progs_ne (env : Env) (len : Nat) (xs : List String)
    (i : Nat) (n : String) (h : ¬ "compress" = n) :
    progsOf (compressLoop env len xs i).evs n = [] := by
  induction xs generalizing i with
  | nil => rfl
  | cons p rest ih =>
      rcases hc : env.compress p with m | r
      · simp [compressLoop, hc, progsOf]
      · rcases hs : r.success with _ | _
        · simp only [compressLoop, hc, hs, Bool.false_eq_true, if_false]
          rw [progsOf_prog_ne _ _ _ _ h, ih]
        · simp only [compressLoop, hc, hs, if_true]
          rw [progsOf_prog_ne _ _ _ _ h, ih]

theorem numberLoop_progs_number (env : Env) (cfg : Config)
    (results : List CompResult) (len : Nat) (xs : List String) (i : Nat)
    (fs : FS) :
    progsOf (numberLoop env cfg results len xs i fs).evs "number"
      = (List.range' i xs.length).map fun k => pctOf k len := by
  induction xs generalizing i fs with
  | nil => rfl
  | cons p rest ih =>
      simp only [numberLoop, List.length_cons, List.range'_succ,
        List.map_cons]
      rw [progsOf_prog_self, ih]

theorem numberLoop_progs_ne (env : Env) (cfg : Config)
    (results : List CompResult) (len : Nat) (xs : List String) (i : Nat)
    (fs : FS) (n : String) (h : ¬ "number" = n) :
    progsOf (numberLoop env cfg results len xs i fs).evs n = [] := by
  induction xs generalizing i fs with
  | nil => rfl
  | cons p rest ih =>
      simp only [numberLoop]
      rw [progsOf_prog_ne _ _ _ _ h, ih]

/-- Progress values are well-formed: all within [0, 100] and
non-decreasing across successive calls. -/
def pctsOk (ps : List Rat) : Prop :=
  (∀ p ∈ ps, 0 ≤ p ∧ p ≤ 100) ∧ List.Chain' (fun a b => a ≤ b) ps

theorem extractPct_nonneg (k total : Nat) : 0 ≤ extractPct k total := by
  unfold extractPct
  positivity

theorem extractPct_le (k total : Nat) (h : k < total) :
    extractPct k total ≤ 100 := by
  unfold extractPct
  have hm : (0 : Rat) < ((max total 1 : Nat) : Rat) := by
    have : 0 < max total 1 := Nat.lt_of_lt_of_le Nat.one_pos
      (le_max_right total 1)
    exact_mod_cast this
  have h1 : ((k : Rat) + 1) / ((max total 1 : Nat) : Rat) ≤ 1 := by
    rw [div_le_one hm]
    have : k + 1 ≤ max total 1 := le_trans h (le_max_left _ _)
    exact_mod_cast this
  calc ((k : Rat) + 1) / ((max total 1 : Nat) : Rat) * 100
      ≤ 1 * 100 := mul_le_mul_of_nonneg_right h1 (by norm_num)
    _ = 100 := by norm_num

theorem extractPct_mono (k total : Nat) :
    extractPct k total ≤ extractPct (k + 1) total := by
  unfold extractPct
  have hm : (0 : Rat) < ((max total 1 : Nat) : Rat) := by
    have : 0 < max total 1 := Nat.lt_of_lt_of_le Nat.one_pos
      (le_max_right total 1)
    exact_mod_cast this
  rw [mul_le_mul_right (by norm_num : (0 : Rat) < 100),
    div_le_div_right hm]
  push_cast
  linarith

theorem pctOf_nonneg (k len : Nat) : 0 ≤ pctOf k len := by
  unfold pctOf
  positivity

theorem pctOf_le (k len : Nat) (h : k < len) : pctOf k len ≤ 100 := by
  unfold pctOf
  have hm : (0 : Rat) < (len : Rat) := by
    exact_mod_cast Nat.lt_of_le_of_lt (Nat.zero_le k) h
  have h1 : ((k : Rat) + 1) / (len : Rat) ≤ 1 := by
    rw [div_le_one hm]
    exact_mod_cast h
  calc ((k : Rat) + 1) / (len : Rat) * 100
      ≤ 1 * 100 := mul_le_mul_of_nonneg_right h1 (by norm_num)
    _ = 100 := by norm_num

theorem pctOf_mono (k len : Nat) : pctOf k len ≤ pctOf (k + 1) len := by
  unfold pctOf
  rcases Nat.eq_zero_or_pos len with h | h
  · subst h
    simp
  · have hm : (0 : Rat) < (len : Rat) := by exact_mod_cast h
    rw [mul_le_mul_right (by norm_num : (0 : Rat) < 100),
      div_le_div_right hm]
    push_cast
    linarith

theorem chain_map_range' (f : Nat → Rat) (h : ∀ k, f k ≤ f (k + 1)) :
    ∀ (m i : Nat), List.Chain' (fun a b => a ≤ b) ((List.range' i m).map f) := by
  intro m
  induction m with
  | zero =>
      intro i
      simp
  | succ m ih =>
      intro i
      rw [List.range'_succ, List.map_cons, List.chain'_cons']
      refine ⟨?_, ih (i + 1)⟩
      intro b hb
      cases m with
      | zero => cases hb
      | succ m' =>
          rw [List.range'_succ, List.map_cons] at hb
          simp only [List.head?_cons, Option.mem_def,
            Option.some.injEq] at hb
          rw [← hb]
          exact h i

theorem pctsOk_map_range' (f : Nat → Rat) (m i : Nat)
    (hb : ∀ k, i ≤ k → k < i + m → 0 ≤ f k ∧ f k ≤ 100)
    (hmono : ∀ k, f k ≤ f (k + 1)) :
    pctsOk ((List.range' i m).map f) := by
  constructor
  · intro p hp
    rw [List.mem_map] at hp
    rcases hp with ⟨k, hk, rfl⟩
    rw [List.mem_range'_1] at hk
    exact hb k hk.1 hk.2
  · exact chain_map_range' f hmono m i

theorem pctsOk_nil : pctsOk [] := ⟨fun p hp => absurd hp (by simp), by simp⟩

theorem extractStep_progs (env : Env) (files : List UploadFile)
    (zips : List ZipInput) (n : String) :
    progsOf (extractStep env files zips).evs n
      = progsOf (uploadLoop env.tmpDir files.length files 0 env.fs0).evs
          n := by
  simp only [extractStep]
  rw [progsOf_upd, progsOf_append, progsOf_append, zipLoop_progs]
  show progsOf _ n ++ [] ++ [] = _
  simp

theorem compressStep_progs (env : Env) (cfg : Config)
    (paths : List String) (n : String) :
    progsOf (compressStep env cfg paths).evs n
      = (if cfg.enable_compression && env.hasCompressor then
          progsOf (compressLoop env paths.length paths 0).evs n
        else []) := by
  simp only [compressStep]
  have htail : ∀ (o : Option String), progsOf
      (if o = none then [Ev.comp "compress"] else []) n = [] := by
    intro o
    split <;> rfl
  cases hg : cfg.enable_compression && env.hasCompressor
  · simp only [Bool.false_eq_true, if_false]
    rw [progsOf_append]
    simp [progsOf]
  · simp only [if_true]
    rw [progsOf_append, htail, progsOf_upd]
    simp

theorem numberStep_progs (env : Env) (cfg : Config)
    (results : List CompResult) (paths : List String) (fs : FS)
    (n : String) :
    progsOf (numberStep env cfg results paths fs).evs n
      = progsOf (numberLoop env cfg results paths.length paths 0 fs).evs
          n := by
  simp only [numberStep]
  rw [progsOf_upd, progsOf_append]
  show progsOf _ n ++ [] = _
  simp

theorem tocStep_progs (env : Env) (cfg : Config) (fs : FS)
    (exs : List Exhibit) (nb : List String) (n : String) :
    progsOf (tocStep env cfg fs exs nb).evs n = [] := by
  simp only [tocStep]
  split <;> rfl

theorem coverStep_progs (env : Env) (cfg : Config) (fs : FS) (n : String) :
    progsOf (coverStep env cfg fs).evs n = [] := by
  simp only [coverStep]
  split <;> rfl

theorem filingStep_progs (env : Env) (cfg : Config) (fs : FS)
    (n : String) :
    progsOf (filingStep env cfg fs).evs n = [] := rfl

theorem mergeStep_progs (env : Env) (cfg : Config) (fs : FS)
    (nb : List String) (n : String) :
    progsOf (mergeStep env cfg fs nb).evs n = [] := rfl

theorem finalizeStep_progs (cfg : Config) (o c : Nat)
    (results : List CompResult) (n : String) :
    progsOf (finalizeStep cfg o c results).evs n = [] := rfl

/-- C9: for each of the per-item steps extract, compress and number,
every percentage the pipeline passes to `set_step_progress` lies in
[0, 100], and the successive values for one step within one run (also an
aborted one) never decrease. -/
theorem c9_progress (env : Env) (files : List UploadFile)
    (zips : List ZipInput) (cfg : Config) :
    pctsOk (progsOf (process_func env files zips cfg).trace "extract")
      ∧ pctsOk (progsOf (process_func env files zips cfg).trace "compress")
      ∧ pctsOk (progsOf (process_func env files zips cfg).trace "number") := by
  have hextract : pctsOk (progsOf (uploadLoop env.tmpDir files.length
      files 0 env.fs0).evs "extract") := by
    rw [uploadLoop_progs_extract]
    apply pctsOk_map_range'
    · intro k hk0 hk
      exact ⟨extractPct_nonneg k files.length,
        extractPct_le k files.length (by omega)⟩
    · intro k
      exact extractPct_mono k files.length
  have hcompress : pctsOk (progsOf (compressStep env cfg
      (extractStep env files zips).paths).evs "compress") := by
    rw [compressStep_progs]
    cases hg : cfg.enable_compression && env.hasCompressor
    · simp only [Bool.false_eq_true, if_false]
      exact pctsOk_nil
    · simp only [if_true]
      rcases compressLoop_progs env (extractStep env files zips).paths.length
        (extractStep env files zips).paths 0 with ⟨j, hj, hp⟩
      rw [hp]
      apply pctsOk_map_range'
      · intro k hk0 hk
        exact ⟨pctOf_nonneg _ _, pctOf_le _ _ (by omega)⟩
      · intro k
        exact pctOf_mono _ _
  have hnumber : ∀ results fs, pctsOk (progsOf (numberLoop env cfg results
      (extractStep env files zips).paths.length
      (extractStep env files zips).paths 0 fs).evs "number") := by
    intro results fs
    rw [numberLoop_progs_number]
    apply pctsOk_map_range'
    · intro k hk0 hk
      exact ⟨pctOf_nonneg _ _, pctOf_le _ _ (by omega)⟩
    · intro k
      exact pctOf_mono _ _
  rcases hf : (compressStep env cfg (extractStep env files zips).paths).fatal
    with _ | m
  · refine ⟨?_, ?_, ?_⟩ <;>
      simp only [process_func, hf, progsOf_append, extractStep_progs,
        compressStep_progs, numberStep_progs, tocStep_progs,
        coverStep_progs, filingStep_progs, mergeStep_progs,
        finalizeStep_progs, List.append_nil, List.nil_append]
    · rw [numberLoop_progs_ne _ _ _ _ _ _ _ _ (by decide),
        List.append_nil]
      rcases hg : cfg.enable_compression && env.hasCompressor
      · simp only [Bool.false_eq_true, if_false, List.append_nil]
        exact hextract
      · simp only [if_true]
        rw [compressLoop_progs_ne _ _ _ _ _ (by decide), List.append_nil]
        exact hextract
    · rw [uploadLoop_progs_ne _ _ _ _ _ _ (by decide),
        numberLoop_progs_ne _ _ _ _ _ _ _ _ (by decide), List.append_nil,
        List.nil_append]
      rw [← compressStep_progs]
      exact hcompress
    · rw [uploadLoop_progs_ne _ _ _ _ _ _ (by decide), List.nil_append]
      rcases hg : cfg.enable_compression && env.hasCompressor
      · simp only [Bool.false_eq_true, if_false, List.nil_append]
        exact hnumber _ _
      · simp only [if_true]
        rw [compressLoop_progs_ne _ _ _ _ _ (by decide), List.nil_append]
        exact hnumber _ _
  · refine ⟨?_, ?_, ?_⟩ <;>
      simp only [process_func, hf, progsOf_append, extractStep_progs,
        compressStep_progs, List.append_nil, List.nil_append]
    · rcases hg : cfg.enable_compression && env.hasCompressor
      · simp only [Bool.false_eq_true, if_false, List.append_nil]
        exact hextract
      · simp only [if_true]
        rw [compressLoop_progs_ne _ _ _ _ _ (by decide), List.append_nil]
        exact hextract
    · rw [uploadLoop_progs_ne _ _ _ _ _ _ (by decide), List.nil_append]
      rw [← compressStep_progs]
      exact hcompress
    · rw [uploadLoop_progs_ne _ _ _ _ _ _ (by decide)]
      rcases hg : cfg.enable_compression && env.hasCompressor
      · simp only [Bool.false_eq_true, if_false, List.append_nil]
        exact pctsOk_nil
      · simp only [if_true]
        rw [compressLoop_progs_ne _ _ _ _ _ (by decide), List.append_nil]
        exact pctsOk_nil

/-- C9 witness: in the concrete 3-file run the first extract progress
value is present and lies in [0, 100]. -/
theorem c9_witness :
    extractPct 0 3 ∈ progsOf (process_func benignEnv files3 []
        cfgBase).trace "extract"
      ∧ 0 ≤ extractPct 0 3 ∧ extractPct 0 3 ≤ 100 := by
  have hmem : extractPct 0 3 ∈ progsOf (process_func benignEnv files3 []
      cfgBase).trace "extract" := by
    have e : progsOf (process_func benignEnv files3 [] cfgBase).trace
        "extract" = [extractPct 0 3, extractPct 1 3, extractPct 2 3] := rfl
    rw [e]
    exact List.mem_cons_self _ _
  exact ⟨hmem,
    (c9_progress benignEnv files3 [] cfgBase).1.1 (extractPct 0 3) hmem⟩

/-- Whether a tracker call is an `update_step` or `complete_step` naming
step `n`. -/
def touches (n : String) : Ev → Bool
  | Ev.upd m _ _ => m == n
  | Ev.prog _ _ => false
  | Ev.comp m => m == n

/-- No `update_step`/`complete_step` call for step `n` occurs in `evs`. -/
def freeOf (n : String) (evs : List Ev) : Bool :=
  evs.all fun e => !(touches n e)

theorem freeOf_append (n : String) (a b : List Ev) :
    freeOf n (a ++ b) = (freeOf n a && freeOf n b) := by
  simp [freeOf, List.all_append]

theorem freeOf_cons (n : String) (e : Ev) (evs : List Ev) :
    freeOf n (e :: evs) = (!(touches n e) && freeOf n evs) := by
  simp [freeOf]

theorem aux_append_free (n : String) (evs rest : List Ev)
    (h : freeOf n evs = true) (st : String) :
    completeWhileRunningAux n (evs ++ rest) st
      = completeWhileRunningAux n rest st := by
  induction evs generalizing st with
  | nil => rfl
  | cons e tail ih =>
      rw [freeOf_cons, Bool.and_eq_true] at h
      cases e with
      | upd m s msg =>
          have hm : ¬ m = n := by
            intro hmn
            simp [touches, hmn] at h
          simp only [List.cons_append, completeWhileRunningAux, if_neg hm]
          exact ih h.2 st
      | prog m p =>
          simp only [List.cons_append, completeWhileRunningAux]
          exact ih h.2 st
      | comp m =>
          have hm : ¬ m = n := by
            intro hmn
            simp [touches, hmn] at h
          simp only [List.cons_append, completeWhileRunningAux, if_neg hm]
          exact ih h.2 st

theorem aux_free (n : String) (evs : List Ev) (h : freeOf n evs = true)
    (st : String) : completeWhileRunningAux n evs st = true := by
  have := aux_append_free n evs [] h st
  rw [List.append_nil] at this
  rw [this]
  rfl

theorem scan_block (n : String) (pre mid post : List Ev)
    (hpre : freeOf n pre = true) (hmid : freeOf n mid = true)
    (hpost : freeOf n post = true) :
    completeWhileRunning
      (pre ++ ((Ev.upd n "running" none :: (mid ++ [Ev.comp n])) ++ post))
      n = true := by
  rw [completeWhileRunning, aux_append_free n pre _ hpre]
  simp only [List.cons_append, completeWhileRunningAux, List.append_eq,
    eq_self_iff_true, if_true]
  rw [List.append_assoc, aux_append_free n mid _ hmid]
  simp only [List.cons_append, List.singleton_append,
    completeWhileRunningAux, List.append_eq, eq_self_iff_true, if_true]
  rw [List.nil_append, aux_free n post hpost]
  simp

theorem scan_free (n : String) (tr : List Ev) (h : freeOf n tr = true) :
    completeWhileRunning tr n = true :=
  aux_free n tr h "pending"

theorem scan_never_running (n : String) (pre post : List Ev)
    (hpre : freeOf n pre = true) :
    completeWhileRunning (pre ++ (Ev.comp n :: post)) n = false := by
  rw [completeWhileRunning, aux_append_free n pre _ hpre]
  simp [completeWhileRunningAux]

theorem uploadLoop_free (tmp : String) (total : Nat)
    (files : List UploadFile) (i : Nat) (fs : FS) (n : String) :
    freeOf n (uploadLoop tmp total files i fs).evs = true := by
  induction files generalizing i fs with
  | nil => rfl
  | cons f rest ih =>
      simp only [uploadLoop, freeOf_cons]
      rw [ih]
      rfl

theorem zipLoop_free (tmp : String) (zips : List ZipInput) (fs : FS)
    (n : String) (h : ¬ "extract" = n) :
    freeOf n (zipLoop tmp zips fs).evs = true := by
  induction zips generalizing fs with
  | nil => rfl
  | cons z rest ih =>
      by_cases hv : zipValidOn fs z = true
      · simp only [zipLoop, hv, if_true]
        exact ih _
      · simp only [Bool.not_eq_true] at hv
        simp only [zipLoop, hv, Bool.false_eq_true, if_false, freeOf_cons]
        rw [ih]
        simp [touches, h]

theorem compressLoop_free (env : Env) (len : Nat) (xs : List String)
    (i : Nat) (n : String) :
    freeOf n (compressLoop env len xs i).evs = true := by
  induction xs generalizing i with
  | nil => rfl
  | cons p rest ih =>
      rcases hc : env.compress p with m | r
      · simp [compressLoop, hc, freeOf]
      · rcases hs : r.success with _ | _
        · simp only [compressLoop, hc, hs, Bool.false_eq_true, if_false,
            freeOf_cons]
          rw [ih]
          rfl
        · simp only [compressLoop, hc, hs, if_true, freeOf_cons]
          rw [ih]
          rfl

theorem numberLoop_free (env : Env) (cfg : Config)
    (results : List CompResult) (len : Nat) (xs : List String) (i : Nat)
    (fs : FS) (n : String) :
    freeOf n (numberLoop env cfg results len xs i fs).evs = true := by
  induction xs generalizing i fs with
  | nil => rfl
  | cons p rest ih =>
      simp only [numberLoop, freeOf_cons]
      rw [ih]
      rfl

theorem extractStep_free (env : Env) (files : List UploadFile)
    (zips : List ZipInput) (n : String) (h : ¬ "extract" = n) :
    freeOf n (extractStep env files zips).evs = true := by
  simp only [extractStep, freeOf_cons, freeOf_append]
  rw [uploadLoop_free, zipLoop_free _ _ _ _ h]
  simp [touches, freeOf, h]

theorem compressStep_free (env : Env) (cfg : Config)
    (paths : List String) (n : String) (h : ¬ "compress" = n) :
    freeOf n (compressStep env cfg paths).evs = true := by
  simp only [compressStep, freeOf_append]
  have h2 : ∀ (o : Option String), freeOf n
      (if o = none then [Ev.comp "compress"] else []) = true := by
    intro o
    split
    · simp [freeOf, touches, h]
    · rfl
  rw [h2, Bool.and_true]
  cases hg : cfg.enable_compression && env.hasCompressor
  · rfl
  · simp only [if_true, freeOf_cons]
    rw [compressLoop_free]
    simp [touches, h]

theorem numberStep_free (env : Env) (cfg : Config)
    (results : List CompResult) (paths : List String) (fs : FS)
    (n : String) (h : ¬ "number" = n) :
    freeOf n (numberStep env cfg results paths fs).evs = true := by
  simp only [numberStep, freeOf_cons, freeOf_append]
  rw [numberLoop_free]
  simp [touches, freeOf, h]

theorem tocStep_free (env : Env) (cfg : Config) (fs : FS)
    (exs : List Exhibit) (nb : List String) (n : String)
    (h : ¬ "toc" = n) :
    freeOf n (tocStep env cfg fs exs nb).evs = true := by
  simp only [tocStep]
  split <;> simp [freeOf, touches, h]

theorem coverStep_free (env : Env) (cfg : Config) (fs : FS) (n : String)
    (h : ¬ "cover" = n) :
    freeOf n (coverStep env cfg fs).evs = true := by
  simp only [coverStep]
  split <;> simp [freeOf, touches, h]

theorem filingStep_free (env : Env) (cfg : Config) (fs : FS) (n : String)
    (h : ¬ "filing_instructions" = n) :
    freeOf n (filingStep env cfg fs).evs = true := by
  simp [filingStep, freeOf, touches, h]

theorem mergeStep_free (env : Env) (cfg : Config) (fs : FS)
    (nb : List String) (n : String) (h : ¬ "merge" = n) :
    freeOf n (mergeStep env cfg fs nb).evs = true := by
  simp [mergeStep, freeOf, touches, h]

theorem finalizeStep_free (cfg : Config) (o c : Nat)
    (results : List CompResult) (n : String) (h : ¬ "finalize" = n) :
    freeOf n (finalizeStep cfg o c results).evs = true := by
  simp [finalizeStep, freeOf, touches, h]

theorem zipValidOn_mono (fs : FS) (d : String) (c : Content)
    (z : ZipInput) (h : zipValidOn fs z = true) :
    zipValidOn (fsWrite fs d c) z = true := by
  cases z with
  | notString s => cases h
  | path p =>
      simp only [zipValidOn, Bool.and_eq_true] at h ⊢
      refine ⟨h.1, ?_⟩
      simp only [fsWrite]
      split
      · rfl
      · exact h.2

theorem zipLoop_evs_nil (tmp : String) (zips : List ZipInput) (fs : FS)
    (h : ∀ z ∈ zips, zipValidOn fs z = true) :
    (zipLoop tmp zips fs).evs = [] := by
  induction zips generalizing fs with
  | nil => rfl
  | cons z rest ih =>
      have hz : zipValidOn fs z = true := h z (List.mem_cons_self _ _)
      simp only [zipLoop, hz, if_true]
      exact ih _ fun z' hz' =>
        zipValidOn_mono _ _ _ _ (h z' (List.mem_cons_of_mem _ hz'))

/-- C8 amended: `complete_step` is invoked only on a currently running
step for number, filing_instructions, merge and finalize in every run,
and for extract whenever every archive entry is valid; compress, toc and
cover satisfy it only when the corresponding feature is enabled
(compress additionally requires a compressor and no compression fault) —
when compression is disabled, `complete_step("compress")` is invoked on
a step that was never announced running (and likewise toc/cover in
completed runs with the feature disabled). -/
theorem c8_amended (env : Env) (files : List UploadFile)
    (zips : List ZipInput) (cfg : Config) :
    (completeWhileRunning (process_func env files zips cfg).trace "number"
          = true
        ∧ completeWhileRunning (process_func env files zips cfg).trace
          "filing_instructions" = true
        ∧ completeWhileRunning (process_func env files zips cfg).trace
          "merge" = true
        ∧ completeWhileRunning (process_func env files zips cfg).trace
          "finalize" = true)
      ∧ ((∀ z ∈ zips, zipValidOn
            (uploadLoop env.tmpDir files.length files 0 env.fs0).fs z
              = true) →
          completeWhileRunning (process_func env files zips cfg).trace
            "extract" = true)
      ∧ ((cfg.enable_compression && env.hasCompressor) = true →
          (process_func env files zips cfg).ok = true →
          completeWhileRunning (process_func env files zips cfg).trace
            "compress" = true)
      ∧ ((cfg.enable_compression && env.hasCompressor) = false →
          completeWhileRunning (process_func env files zips cfg).trace
            "compress" = false)
      ∧ (cfg.add_toc = true →
          completeWhileRunning (process_func env files zips cfg).trace
            "toc" = true)
      ∧ (cfg.add_toc = false → (process_func env files zips cfg).ok = true →
          completeWhileRunning (process_func env files zips cfg).trace
            "toc" = false)
      ∧ (cfg.add_cover_letter = true →
          completeWhileRunning (process_func env files zips cfg).trace
            "cover" = true)
      ∧ (cfg.add_cover_letter = false →
          (process_func env files zips cfg).ok = true →
          completeWhileRunning (process_func env files zips cfg).trace
            "cover" = false) := by
  rcases hf : (compressStep env cfg (extractStep env files zips).paths).fatal
    with _ | m
  · -- no fatal fault: the full trace is produced
    simp only [process_func, hf]
    refine ⟨⟨?_, ?_, ?_, ?_⟩, ?_, ?_, ?_, ?_, ?_, ?_, ?_⟩
    · -- number
      rw [completeWhileRunning]
      simp only [List.append_assoc]
      rw [aux_append_free _ _ _ (extractStep_free env files zips _
          (by decide)),
        aux_append_free _ _ _ (compressStep_free env cfg _ _ (by decide))]
      simp only [numberStep, completeWhileRunningAux, String.reduceEq,
        eq_self_iff_true, if_true, if_false, decide_True, Bool.true_and, decide_False, Bool.false_and,
        List.cons_append, List.append_assoc, List.append_eq,
        List.nil_append]
      rw [aux_append_free _ _ _ (numberLoop_free env cfg _ _ _ _ _ _)]
      simp only [completeWhileRunningAux, String.reduceEq,
        eq_self_iff_true, if_true, if_false, decide_True, Bool.true_and, decide_False, Bool.false_and,
        List.cons_append, List.append_assoc, List.append_eq,
        List.nil_append]
      rw [aux_append_free _ _ _ (tocStep_free env cfg _ _ _ _ (by decide)),
        aux_append_free _ _ _ (coverStep_free env cfg _ _ (by decide))]
      simp only [filingStep, mergeStep, finalizeStep,
        completeWhileRunningAux, String.reduceEq, eq_self_iff_true,
        if_true, if_false, decide_True, Bool.true_and, decide_False, Bool.false_and, List.cons_append,
        List.append_assoc, List.append_eq, List.nil_append]
    · -- filing_instructions
      rw [completeWhileRunning]
      simp only [List.append_assoc]
      rw [aux_append_free _ _ _ (extractStep_free env files zips _
          (by decide)),
        aux_append_free _ _ _ (compressStep_free env cfg _ _ (by decide)),
        aux_append_free _ _ _ (numberStep_free env cfg _ _ _ _ (by decide)),
        aux_append_free _ _ _ (tocStep_free env cfg _ _ _ _ (by decide)),
        aux_append_free _ _ _ (coverStep_free env cfg _ _ (by decide))]
      simp only [filingStep, mergeStep, finalizeStep,
        completeWhileRunningAux, String.reduceEq, eq_self_iff_true,
        if_true, if_false, decide_True, Bool.true_and, decide_False, Bool.false_and, List.cons_append,
        List.append_assoc, List.append_eq, List.nil_append]
    · -- merge
      rw [completeWhileRunning]
      simp only [List.append_assoc]
      rw [aux_append_free _ _ _ (extractStep_free env files zips _
          (by decide)),
        aux_append_free _ _ _ (compressStep_free env cfg _ _ (by decide)),
        aux_append_free _ _ _ (numberStep_free env cfg _ _ _ _ (by decide)),
        aux_append_free _ _ _ (tocStep_free env cfg _ _ _ _ (by decide)),
        aux_append_free _ _ _ (coverStep_free env cfg _ _ (by decide))]
      simp only [filingStep, mergeStep, finalizeStep,
        completeWhileRunningAux, String.reduceEq, eq_self_iff_true,
        if_true, if_false, decide_True, Bool.true_and, decide_False, Bool.false_and, List.cons_append,
        List.append_assoc, List.append_eq, List.nil_append]
    · -- finalize
      rw [completeWhileRunning]
      simp only [List.append_assoc]
      rw [aux_append_free _ _ _ (extractStep_free env files zips _
          (by decide)),
        aux_append_free _ _ _ (compressStep_free env cfg _ _ (by decide)),
        aux_append_free _ _ _ (numberStep_free env cfg _ _ _ _ (by decide)),
        aux_append_free _ _ _ (tocStep_free env cfg _ _ _ _ (by decide)),
        aux_append_free _ _ _ (coverStep_free env cfg _ _ (by decide))]
      simp only [filingStep, mergeStep, finalizeStep,
        completeWhileRunningAux, String.reduceEq, eq_self_iff_true,
        if_true, if_false, decide_True, Bool.true_and, decide_False, Bool.false_and, List.cons_append,
        List.append_assoc, List.append_eq, List.nil_append]
    · -- extract, when every archive entry is valid
      intro hval
      have hze := zipLoop_evs_nil env.tmpDir zips _ hval
      rw [completeWhileRunning]
      simp only [List.append_assoc, extractStep, hze,
        completeWhileRunningAux, String.reduceEq, eq_self_iff_true,
        if_true, if_false, decide_True, Bool.true_and, decide_False, Bool.false_and, List.cons_append,
        List.append_eq, List.nil_append, List.append_nil]
      rw [aux_append_free _ _ _ (uploadLoop_free env.tmpDir _ files 0 _ _)]
      simp only [completeWhileRunningAux, String.reduceEq,
        eq_self_iff_true, if_true, if_false, decide_True, Bool.true_and, decide_False, Bool.false_and,
        List.cons_append, List.append_assoc, List.append_eq,
        List.nil_append]
      rw [aux_append_free _ _ _ (compressStep_free env cfg _ _ (by decide)),
        aux_append_free _ _ _ (numberStep_free env cfg _ _ _ _ (by decide)),
        aux_append_free _ _ _ (tocStep_free env cfg _ _ _ _ (by decide)),
        aux_append_free _ _ _ (coverStep_free env cfg _ _ (by decide))]
      simp only [filingStep, mergeStep, finalizeStep,
        completeWhileRunningAux, String.reduceEq, eq_self_iff_true,
        if_true, if_false, decide_True, Bool.true_and, decide_False, Bool.false_and, List.cons_append,
        List.append_assoc, List.append_eq, List.nil_append]
    · -- compress, enabled with a compressor and no fault
      intro hg _
      have hlf : (compressLoop env (extractStep env files zips).paths.length
          (extractStep env files zips).paths 0).fatal = none := by
        have h2 := hf
        simp only [compressStep, hg, if_true] at h2
        exact h2
      rw [completeWhileRunning]
      simp only [List.append_assoc]
      rw [aux_append_free _ _ _ (extractStep_free env files zips _
          (by decide))]
      simp only [compressStep, hg, hlf, completeWhileRunningAux,
        String.reduceEq, eq_self_iff_true, if_true, if_false, decide_True,
        Bool.true_and, decide_False, Bool.false_and, List.cons_append, List.append_assoc, List.append_eq,
        List.nil_append]
      rw [aux_append_free _ _ _ (compressLoop_free env _ _ 0 _)]
      simp only [completeWhileRunningAux, String.reduceEq,
        eq_self_iff_true, if_true, if_false, decide_True, Bool.true_and, decide_False, Bool.false_and,
        List.cons_append, List.append_assoc, List.append_eq,
        List.nil_append]
      rw [aux_append_free _ _ _ (numberLoop_free env cfg _ _ _ _ _ _)]
      simp only [completeWhileRunningAux, String.reduceEq,
        eq_self_iff_true, if_true, if_false, decide_True, Bool.true_and, decide_False, Bool.false_and,
        List.cons_append, List.append_assoc, List.append_eq,
        List.nil_append]
      rw [aux_append_free _ _ _ (tocStep_free env cfg _ _ _ _ (by decide)),
        aux_append_free _ _ _ (coverStep_free env cfg _ _ (by decide))]
      simp only [filingStep, mergeStep, finalizeStep,
        completeWhileRunningAux, String.reduceEq, eq_self_iff_true,
        if_true, if_false, decide_True, Bool.true_and, decide_False, Bool.false_and, List.cons_append,
        List.append_assoc, List.append_eq, List.nil_append]
    · -- compress, feature disabled: completed while never running
      intro hg
      rw [completeWhileRunning]
      simp only [List.append_assoc]
      rw [aux_append_free _ _ _ (extractStep_free env files zips _
          (by decide))]
      simp only [compressStep, hg, Bool.false_eq_true, if_false,
        completeWhileRunningAux, String.reduceEq, eq_self_iff_true,
        if_true, decide_True, Bool.true_and, List.cons_append,
        List.append_assoc, List.append_eq, List.nil_append]
      simp
    · -- toc enabled
      intro ht
      rw [completeWhileRunning]
      simp only [List.append_assoc]
      rw [aux_append_free _ _ _ (extractStep_free env files zips _
          (by decide)),
        aux_append_free _ _ _ (compressStep_free env cfg _ _ (by decide)),
        aux_append_free _ _ _ (numberStep_free env cfg _ _ _ _ (by decide))]
      simp only [tocStep, ht, completeWhileRunningAux, String.reduceEq,
        eq_self_iff_true, if_true, if_false, decide_True, Bool.true_and, decide_False, Bool.false_and,
        List.cons_append, List.append_assoc, List.append_eq,
        List.nil_append]
      rw [aux_append_free _ _ _ (coverStep_free env cfg _ _ (by decide))]
      simp only [filingStep, mergeStep, finalizeStep,
        completeWhileRunningAux, String.reduceEq, eq_self_iff_true,
        if_true, if_false, decide_True, Bool.true_and, decide_False, Bool.false_and, List.cons_append,
        List.append_assoc, List.append_eq, List.nil_append]
    · -- toc disabled: completed while never running
      intro ht _
      rw [completeWhileRunning]
      simp only [List.append_assoc]
      rw [aux_append_free _ _ _ (extractStep_free env files zips _
          (by decide)),
        aux_append_free _ _ _ (compressStep_free env cfg _ _ (by decide)),
        aux_append_free _ _ _ (numberStep_free env cfg _ _ _ _ (by decide))]
      simp only [tocStep, ht, Bool.false_eq_true, if_false,
        completeWhileRunningAux, String.reduceEq, eq_self_iff_true,
        if_true, decide_True, Bool.true_and, List.cons_append,
        List.append_assoc, List.append_eq, List.nil_append]
      simp
    · -- cover enabled
      intro hc
      rw [completeWhileRunning]
      simp only [List.append_assoc]
      rw [aux_append_free _ _ _ (extractStep_free env files zips _
          (by decide)),
        aux_append_free _ _ _ (compressStep_free env cfg _ _ (by decide)),
        aux_append_free _ _ _ (numberStep_free env cfg _ _ _ _ (by decide)),
        aux_append_free _ _ _ (tocStep_free env cfg _ _ _ _ (by decide))]
      simp only [coverStep, hc, filingStep, mergeStep, finalizeStep,
        completeWhileRunningAux, String.reduceEq, eq_self_iff_true,
        if_true, if_false, decide_True, Bool.true_and, decide_False, Bool.false_and, List.cons_append,
        List.append_assoc, List.append_eq, List.nil_append]
    · -- cover disabled: completed while never running
      intro hc _
      rw [completeWhileRunning]
      simp only [List.append_assoc]
      rw [aux_append_free _ _ _ (extractStep_free env files zips _
          (by decide)),
        aux_append_free _ _ _ (compressStep_free env cfg _ _ (by decide)),
        aux_append_free _ _ _ (numberStep_free env cfg _ _ _ _ (by decide)),
        aux_append_free _ _ _ (tocStep_free env cfg _ _ _ _ (by decide))]
      simp only [coverStep, hc, Bool.false_eq_true, if_false,
        completeWhileRunningAux, String.reduceEq, eq_self_iff_true,
        if_true, decide_True, Bool.true_and, List.cons_append,
        List.append_assoc, List.append_eq, List.nil_append]
      simp
  · -- fatal fault in the compress loop: trace stops after compress
    simp only [process_func, hf]
    have hfree : ∀ n2, ¬ "extract" = n2 → ¬ "compress" = n2 →
        completeWhileRunning ((extractStep env files zips).evs
          ++ (compressStep env cfg (extractStep env files zips).paths).evs)
          n2 = true := by
      intro n2 h1 h2
      apply scan_free
      rw [freeOf_append, extractStep_free env files zips _ h1,
        compressStep_free env cfg _ _ h2]
      rfl
    refine ⟨⟨hfree _ (by decide) (by decide), hfree _ (by decide) (by decide),
      hfree _ (by decide) (by decide), hfree _ (by decide) (by decide)⟩,
      ?_, ?_, ?_, fun _ => hfree _ (by decide) (by decide), ?_,
      fun _ => hfree _ (by decide) (by decide), ?_⟩
    · -- extract, all archive entries valid
      intro hval
      have hze := zipLoop_evs_nil env.tmpDir zips _ hval
      rw [completeWhileRunning]
      simp only [List.append_assoc, extractStep, hze,
        completeWhileRunningAux, String.reduceEq, eq_self_iff_true,
        if_true, if_false, decide_True, Bool.true_and, decide_False, Bool.false_and, List.cons_append,
        List.append_eq, List.nil_append, List.append_nil]
      rw [aux_append_free _ _ _ (uploadLoop_free env.tmpDir _ files 0 _ _)]
      simp only [completeWhileRunningAux, String.reduceEq,
        eq_self_iff_true, if_true, if_false, decide_True, Bool.true_and, decide_False, Bool.false_and,
        List.cons_append, List.append_assoc, List.append_eq,
        List.nil_append]
      exact aux_free _ _ (compressStep_free env cfg _ _ (by decide)) _
    · -- compress enabled and run ok: contradiction with the fatal fault
      intro _ hok
      simp only [process_func, hf, RunResult.ok] at hok
      cases hok
    · -- compress disabled: contradiction, disabled compression cannot fault
      intro hg
      have h2 : (compressStep env cfg (extractStep env files zips).paths).fatal
          = none := by
        simp [compressStep, hg]
      rw [hf] at h2
      cases h2
    · -- toc disabled and ok: contradiction with the fatal fault
      intro _ hok
      simp only [process_func, hf, RunResult.ok] at hok
      cases hok
    · -- cover disabled and ok: contradiction with the fatal fault
      intro _ hok
      simp only [process_func, hf, RunResult.ok] at hok
      cases hok

/-- C8 witness: in the concrete 3-file run with compression enabled,
both the number step and the compress step pass the
complete-only-while-running scan. -/
theorem c8_witness :
    completeWhileRunning (process_func benignEnv files3 [] cfgBase).trace
        "number" = true
      ∧ completeWhileRunning (process_func benignEnv files3 []
          cfgBase).trace "compress" = true :=
  ⟨(c8_amended benignEnv files3 [] cfgBase).1.1,
    (c8_amended benignEnv files3 [] cfgBase).2.2.1 rfl rfl⟩
